import Mathlib

/-!
Shallow embedding of `mir_eval/pattern.py`: evaluation metrics for musical
pattern discovery (standard, establishment, occurrence, three-layer and
first-n precision/recall/F-measure scores).

Conventions used throughout:

* Python numbers are modelled as rationals `ℚ`.
* A raw `(onset, midi)` tuple is a `List ℚ`, so that the validation layer can
  inspect its arity exactly as the Python code does with `len(onset_midi)`.
* Python exceptions (`ValueError`, `ZeroDivisionError`) are modelled with
  `Except String`; calls to `warnings.warn` are collected into a `List String`
  by the `validate` wrapper.
* `numpy` reductions (`np.max`, `np.mean`, axiswise maxima along `axis=0` or
  `axis=1`) are modelled by `listMax`, `npMean`, `colMaxima` and `rowMaxima`.
* `util.f_measure` is imported by the source from `mir_eval.util`, a module
  that is not part of this repository snapshot; it is modelled from the spec.
-/

deriving instance DecidableEq for Except

namespace MirEval

/-- A raw onset/midi tuple, kept as a list of numbers so that validation can
check its arity (`len(onset_midi) != 2`). -/
abbrev Event := List ℚ

/-- An occurrence: a list of (onset, midi) events. -/
abbrev Occurrence := List Event

/-- A pattern: a list of occurrences; the first occurrence is the prototype. -/
abbrev Pattern := List Occurrence

/-- A pattern collection: a list of patterns. -/
abbrev PatternCollection := List Pattern

/-- `_n_onset_midi`: number of onset_midi objects in a pattern list. -/
def n_onset_midi (patterns : PatternCollection) : Nat :=
  (patterns.map (fun pat => (pat.map List.length).sum)).sum

def emptyRefWarning : String := "Reference patterns are empty."

def emptyEstWarning : String := "Estimated patterns are empty."

def occurrenceErrorMsg : String := "Each pattern must contain at least one occurrence."

def tupleErrorMsg : String := "The (onset, midi) tuple must contain exactly 2 elements."

/-- Warnings emitted by the `validate` decorator before the structural checks. -/
def warningsOf (reference_patterns estimated_patterns : PatternCollection) : List String :=
  (if n_onset_midi reference_patterns = 0 then [emptyRefWarning] else []) ++
  (if n_onset_midi estimated_patterns = 0 then [emptyEstWarning] else [])

/-- First structural error raised by `validate` while scanning one collection
(pattern with no occurrence, or an event tuple whose arity is not 2). -/
def collectionError (patterns : PatternCollection) : Option String :=
  patterns.findSome? (fun pattern =>
    if pattern.length = 0 then some occurrenceErrorMsg
    else pattern.findSome? (fun occurrence =>
      occurrence.findSome? (fun onset_midi =>
        if onset_midi.length ≠ 2 then some tupleErrorMsg else none)))

/-- First structural error raised by `validate`: the reference collection is
scanned first, then the estimated one. -/
def validateError (reference_patterns estimated_patterns : PatternCollection) : Option String :=
  match collectionError reference_patterns with
  | some e => some e
  | none => collectionError estimated_patterns

/-- The `validate` decorator: emit the empty-collection warnings, raise the
first structural error if any, otherwise run the wrapped metric (whose own
exceptions propagate). -/
def runValidated (metric : PatternCollection → PatternCollection → Except String α)
    (reference_patterns estimated_patterns : PatternCollection) :
    List String × Except String α :=
  (warningsOf reference_patterns estimated_patterns,
   match validateError reference_patterns estimated_patterns with
   | some e => .error e
   | none => metric reference_patterns estimated_patterns)

/-- `_occurrence_intersection`: the two occurrences viewed as sets of events,
intersected. -/
def occurrence_intersection (occ_P occ_Q : Occurrence) : Finset Event :=
  occ_P.toFinset ∩ occ_Q.toFinset

/-- `np.max` of a nonempty list; numpy raises on an empty input, a case that is
unreachable at every call site below (validation guarantees nonempty patterns
and the empty-collection guard returns early), and is given the value 0. -/
def listMax : List ℚ → ℚ
  | [] => 0
  | [x] => x
  | x :: y :: l => max x (listMax (y :: l))

/-- `np.max(m, axis=0)`: columnwise maxima of a matrix given as a list of
rows, obtained as the elementwise max reduction of the rows. -/
def colMaxima : List (List ℚ) → List ℚ
  | [] => []
  | [row] => row
  | row :: row2 :: rest => List.zipWith max row (colMaxima (row2 :: rest))

/-- `np.max(m, axis=1)`: rowwise maxima. -/
def rowMaxima (m : List (List ℚ)) : List ℚ := m.map listMax

/-- `np.mean` of a list; an empty input is unreachable at every call site. -/
def npMean (l : List ℚ) : ℚ := l.sum / l.length

/-- Modelled from the spec: `util.f_measure` lives in `mir_eval/util.py`,
which is missing from this repository snapshot.  Spec section 4.8 defines the
combinator as `f(P, R) = 2 P R / (P + R)` when `P + R > 0`, else `0`. -/
def f_measure (precision recl : ℚ) : ℚ :=
  if 0 < precision + recl then 2 * precision * recl / (precision + recl) else 0

/-- Run an effectful map left to right, stopping at the first exception, as a
Python `for` loop over the list would. -/
def exceptMap (f : α → Except String β) : List α → Except String (List β)
  | [] => .ok []
  | a :: l =>
    match f a with
    | .error e => .error e
    | .ok b =>
      match exceptMap f l with
      | .error e => .error e
      | .ok bs => .ok (b :: bs)

/-- One cell of the cardinality-score matrix:
`len(intersection) / float(np.max([len(occ_P), len(occ_Q)]))`.
Python raises `ZeroDivisionError` when both occurrences are empty. -/
def cardinality_score (occ_P occ_Q : Occurrence) : Except String ℚ :=
  let denom : ℚ := ((max occ_P.length occ_Q.length : Nat) : ℚ)
  if denom = 0 then .error "ZeroDivisionError"
  else .ok (((occurrence_intersection occ_P occ_Q).card : ℚ) / denom)

/-- `_compute_score_matrix`: the |P| x |Q| cardinality-score matrix; any other
similarity-metric name raises a `ValueError` at the first cell. -/
def compute_score_matrix (P Q : Pattern) (similarity_metric : String) :
    Except String (List (List ℚ)) :=
  exceptMap (fun occ_P => exceptMap (fun occ_Q =>
    if similarity_metric = "cardinality_score" then cardinality_score occ_P occ_Q
    else .error "The similarity metric can only be: cardinality_score.") Q) P

/-- Default tolerance of `standard_FPR` (`tol=1e-5`). -/
def tolDefault : ℚ := 1 / 100000

/-- Rowwise difference `P - Q` of two prototype matrices (numpy broadcasting
of two equal-shape 2-d arrays). -/
def matSub (P Q : Occurrence) : List (List ℚ) :=
  List.zipWith (fun rp rq => List.zipWith (fun a b => a - b) rp rq) P Q

/-- `np.diff(m, axis=0)`: difference of consecutive rows. -/
def diffRows (m : List (List ℚ)) : List (List ℚ) :=
  List.zipWith (fun r1 r2 => List.zipWith (fun a b => b - a) r1 r2) m m.tail

/-- `np.sum` over all entries of a matrix. -/
def matSum (m : List (List ℚ)) : ℚ := (m.map List.sum).sum

/-- The transposition test of `standard_FPR` on two prototypes: equal length
and `np.abs(np.sum(np.diff(P - Q, axis=0))) <= tol`. -/
def protoMatchB (tol : ℚ) (P Q : Occurrence) : Bool :=
  decide (P.length = Q.length) && decide (|matSum (diffRows (matSub P Q))| ≤ tol)

/-- The counter `k` of `standard_FPR`: each reference pattern is counted at
most once (the inner loop breaks at the first matching estimated prototype). -/
def stdMatches (tol : ℚ) (reference_patterns estimated_patterns : PatternCollection) : Nat :=
  reference_patterns.countP (fun ref_pattern =>
    estimated_patterns.any (fun est_pattern =>
      protoMatchB tol (ref_pattern.headD []) (est_pattern.headD [])))

/-- Body of `standard_FPR` (after validation). -/
def standard_FPR_raw (reference_patterns estimated_patterns : PatternCollection)
    (tol : ℚ) : ℚ × ℚ × ℚ :=
  if n_onset_midi reference_patterns = 0 ∨ n_onset_midi estimated_patterns = 0 then (0, 0, 0)
  else
    let k := stdMatches tol reference_patterns estimated_patterns
    let precision := (k : ℚ) / (estimated_patterns.length : ℚ)
    let recl := (k : ℚ) / (reference_patterns.length : ℚ)
    (f_measure precision recl, precision, recl)

/-- `standard_FPR`, wrapped by `validate`.  Returns the emitted warnings and
either the `(f_measure, precision, recall)` triple or the raised error. -/
def standard_FPR (reference_patterns estimated_patterns : PatternCollection)
    (tol : ℚ) : List String × Except String (ℚ × ℚ × ℚ) :=
  runValidated (fun r e => .ok (standard_FPR_raw r e tol)) reference_patterns estimated_patterns

/-- Body of `establishment_FPR` (after validation): `S[iP, iQ] = np.max(s)`
over the score matrix `s` of each pattern pair, then mean of column maxima as
precision and mean of row maxima as recall. -/
def establishment_FPR_raw (reference_patterns estimated_patterns : PatternCollection)
    (similarity_metric : String) : Except String (ℚ × ℚ × ℚ) :=
  if n_onset_midi reference_patterns = 0 ∨ n_onset_midi estimated_patterns = 0 then .ok (0, 0, 0)
  else
    match exceptMap (fun ref_pattern => exceptMap (fun est_pattern =>
        Except.map (fun s => listMax s.flatten)
          (compute_score_matrix ref_pattern est_pattern similarity_metric))
        estimated_patterns) reference_patterns with
    | .error e => .error e
    | .ok S =>
      let precision := npMean (colMaxima S)
      let recl := npMean (rowMaxima S)
      .ok (f_measure precision recl, precision, recl)

/-- `establishment_FPR`, wrapped by `validate`. -/
def establishment_FPR (reference_patterns estimated_patterns : PatternCollection)
    (similarity_metric : String) : List String × Except String (ℚ × ℚ × ℚ) :=
  runValidated (fun r e => establishment_FPR_raw r e similarity_metric)
    reference_patterns estimated_patterns

/-- One cell of the `occurrence_FPR` loop: the score matrix of the pattern
pair and, when its maximum reaches the threshold, the pair of `O_PR` values
(mean of column maxima, mean of row maxima) plus a relevance flag.  A pair
below the threshold keeps the `np.zeros` entries `(0, 0)`. -/
def occPairData (thres : ℚ) (similarity_metric : String) (ref_pattern est_pattern : Pattern) :
    Except String (ℚ × ℚ × Bool) :=
  Except.map (fun s =>
      if thres ≤ listMax s.flatten then (npMean (colMaxima s), npMean (rowMaxima s), true)
      else (0, 0, false))
    (compute_score_matrix ref_pattern est_pattern similarity_metric)

/-- Body of `occurrence_FPR` (after validation).  `rel` is `rel_idx`, the list
of relevant pattern pairs in loop order; the final precision and recall are
means over the `np.ix_(rel_idx[:, 0], rel_idx[:, 1])` submatrix of the `O_PR`
slices, whose column (resp. row) maxima have one entry per relevant pair. -/
def occurrence_FPR_raw (reference_patterns estimated_patterns : PatternCollection)
    (thres : ℚ) (similarity_metric : String) : Except String (ℚ × ℚ × ℚ) :=
  if n_onset_midi reference_patterns = 0 ∨ n_onset_midi estimated_patterns = 0 then .ok (0, 0, 0)
  else
    match exceptMap (fun ref_pattern =>
        exceptMap (occPairData thres similarity_metric ref_pattern) estimated_patterns)
        reference_patterns with
    | .error e => .error e
    | .ok M =>
      let entry := fun r c => (M.getD r []).getD c (0, 0, false)
      let rel := (List.range reference_patterns.length).flatMap (fun i =>
        (List.range estimated_patterns.length).filterMap (fun j =>
          if (entry i j).2.2 then some (i, j) else none))
      if rel = [] then .ok (f_measure 0 0, 0, 0)
      else
        let rows := rel.map Prod.fst
        let cols := rel.map Prod.snd
        let precision := npMean (cols.map (fun c => listMax (rows.map (fun r => (entry r c).1))))
        let recl := npMean (rows.map (fun r => listMax (cols.map (fun c => (entry r c).2.1))))
        .ok (f_measure precision recl, precision, recl)

/-- `occurrence_FPR`, wrapped by `validate`. -/
def occurrence_FPR (reference_patterns estimated_patterns : PatternCollection)
    (thres : ℚ) (similarity_metric : String) : List String × Except String (ℚ × ℚ × ℚ) :=
  runValidated (fun r e => occurrence_FPR_raw r e thres similarity_metric)
    reference_patterns estimated_patterns

/-- `compute_first_layer_PR`: `s / len(ref_occs)` and `s / len(est_occs)` with
`s` the intersection cardinality; Python raises `ZeroDivisionError` on an
empty occurrence (the precision division runs first). -/
def compute_first_layer_PR (ref_occs est_occs : Occurrence) : Except String (ℚ × ℚ) :=
  let s : ℚ := ((occurrence_intersection ref_occs est_occs).card : ℚ)
  if ref_occs.length = 0 then .error "ZeroDivisionError"
  else if est_occs.length = 0 then .error "ZeroDivisionError"
  else .ok (s / (ref_occs.length : ℚ), s / (est_occs.length : ℚ))

/-- `compute_layer` at `layer=1`: the F-measure matrix of all occurrence pairs
of two patterns. -/
def compute_layer1 (ref_pattern est_pattern : Pattern) : Except String (List (List ℚ)) :=
  exceptMap (fun ref_occ => exceptMap (fun est_occ =>
      Except.map (fun pr => f_measure pr.1 pr.2) (compute_first_layer_PR ref_occ est_occ))
    est_pattern) ref_pattern

/-- `compute_second_layer_PR`: mean of column maxima and mean of row maxima of
the first-layer F-measure matrix. -/
def compute_second_layer_PR (ref_pattern est_pattern : Pattern) : Except String (ℚ × ℚ) :=
  Except.map (fun F1 => (npMean (colMaxima F1), npMean (rowMaxima F1)))
    (compute_layer1 ref_pattern est_pattern)

/-- `compute_layer` at `layer=2`: the F-measure matrix of all pattern pairs. -/
def compute_layer2 (reference_patterns estimated_patterns : PatternCollection) :
    Except String (List (List ℚ)) :=
  exceptMap (fun ref_pattern => exceptMap (fun est_pattern =>
      Except.map (fun pr => f_measure pr.1 pr.2) (compute_second_layer_PR ref_pattern est_pattern))
    estimated_patterns) reference_patterns

/-- Body of `three_layer_FPR` (after validation). -/
def three_layer_FPR_raw (reference_patterns estimated_patterns : PatternCollection) :
    Except String (ℚ × ℚ × ℚ) :=
  if n_onset_midi reference_patterns = 0 ∨ n_onset_midi estimated_patterns = 0 then .ok (0, 0, 0)
  else
    Except.map (fun F2 =>
        let precision := npMean (colMaxima F2)
        let recl := npMean (rowMaxima F2)
        (f_measure precision recl, precision, recl))
      (compute_layer2 reference_patterns estimated_patterns)

/-- `three_layer_FPR`, wrapped by `validate`. -/
def three_layer_FPR (reference_patterns estimated_patterns : PatternCollection) :
    List String × Except String (ℚ × ℚ × ℚ) :=
  runValidated three_layer_FPR_raw reference_patterns estimated_patterns

/-- Dynamic return value of the first-n metrics: Python returns the tuple
`(0., 0., 0.)` on the empty-input guard and a single float otherwise. -/
inductive MetricValue where
  | triple (f p r : ℚ)
  | single (v : ℚ)
deriving DecidableEq, Repr

/-- Body of `first_n_three_layer_P` (after the outer validation): note that
the empty-input guard returns the tuple `0., 0., 0.` even though the normal
path returns the single precision value; the inner `three_layer_FPR` call is
the wrapped (re-validated) function. -/
def first_n_three_layer_P_raw (reference_patterns estimated_patterns : PatternCollection)
    (n : Nat) : Except String MetricValue :=
  if n_onset_midi reference_patterns = 0 ∨ n_onset_midi estimated_patterns = 0 then
    .ok (.triple 0 0 0)
  else
    let fn_est_patterns := estimated_patterns.take (min estimated_patterns.length n)
    match (three_layer_FPR reference_patterns fn_est_patterns).2 with
    | .error e => .error e
    | .ok fpr => .ok (.single fpr.2.1)

/-- `first_n_three_layer_P`, wrapped by `validate`. -/
def first_n_three_layer_P (reference_patterns estimated_patterns : PatternCollection)
    (n : Nat) : List String × Except String MetricValue :=
  runValidated (fun r e => first_n_three_layer_P_raw r e n)
    reference_patterns estimated_patterns

/-- Body of `first_n_target_proportion_R` (after the outer validation): same
empty-input tuple quirk; delegates to the wrapped `establishment_FPR` with the
default similarity metric and returns its recall value. -/
def first_n_target_proportion_R_raw (reference_patterns estimated_patterns : PatternCollection)
    (n : Nat) : Except String MetricValue :=
  if n_onset_midi reference_patterns = 0 ∨ n_onset_midi estimated_patterns = 0 then
    .ok (.triple 0 0 0)
  else
    let fn_est_patterns := estimated_patterns.take (min estimated_patterns.length n)
    match (establishment_FPR reference_patterns fn_est_patterns "cardinality_score").2 with
    | .error e => .error e
    | .ok fpr => .ok (.single fpr.2.2)

/-- `first_n_target_proportion_R`, wrapped by `validate`. -/
def first_n_target_proportion_R (reference_patterns estimated_patterns : PatternCollection)
    (n : Nat) : List String × Except String MetricValue :=
  runValidated (fun r e => first_n_target_proportion_R_raw r e n)
    reference_patterns estimated_patterns

/-! ### Exception-free companion values

The following total functions give the value a score computation has whenever
it does not raise; they are used to state refinement claims about the
exception-threaded definitions above and are proved to agree with them on
every run that returns. -/

/-- Total value of one cardinality-score cell (division by zero yields the
junk value 0, a case on which the effectful `cardinality_score` raises). -/
def cardScoreTotal (occ_P occ_Q : Occurrence) : ℚ :=
  ((occurrence_intersection occ_P occ_Q).card : ℚ) / ((max occ_P.length occ_Q.length : Nat) : ℚ)

/-- Total value of the cardinality-score matrix between two patterns. -/
def scoreMatrixTotal (P Q : Pattern) : List (List ℚ) :=
  P.map (fun occ_P => Q.map (fun occ_Q => cardScoreTotal occ_P occ_Q))

/-- The best occurrence-pair score between two patterns: the maximum entry of
their cardinality-score matrix. -/
def patternPairBest (P Q : Pattern) : ℚ := listMax (scoreMatrixTotal P Q).flatten

/-- Establishment precision as the spec words it: the mean, over estimated
patterns, of each estimated pattern's best match over the reference patterns. -/
def specEstablishmentPrecision (reference_patterns estimated_patterns : PatternCollection) : ℚ :=
  ((estimated_patterns.map (fun est_pattern =>
      listMax (reference_patterns.map (fun ref_pattern =>
        patternPairBest ref_pattern est_pattern)))).sum) / (estimated_patterns.length : ℚ)

/-- Establishment recall as the spec words it: the mean, over reference
patterns, of each reference pattern's best match over the estimated patterns. -/
def specEstablishmentRecall (reference_patterns estimated_patterns : PatternCollection) : ℚ :=
  ((reference_patterns.map (fun ref_pattern =>
      listMax (estimated_patterns.map (fun est_pattern =>
        patternPairBest ref_pattern est_pattern)))).sum) / (reference_patterns.length : ℚ)

/-- Total value of one `occurrence_FPR` cell: the pair of `O_PR` values and
the relevance flag of one pattern pair. -/
def occPairTotal (thres : ℚ) (ref_pattern est_pattern : Pattern) : ℚ × ℚ × Bool :=
  let s := scoreMatrixTotal ref_pattern est_pattern
  if thres ≤ listMax s.flatten then (npMean (colMaxima s), npMean (rowMaxima s), true)
  else (0, 0, false)

/-- The list `rel_idx` of relevant pattern pairs, in loop order. -/
def relPairsTotal (reference_patterns estimated_patterns : PatternCollection)
    (thres : ℚ) : List (Nat × Nat) :=
  (List.range reference_patterns.length).flatMap (fun i =>
    (List.range estimated_patterns.length).filterMap (fun j =>
      if (occPairTotal thres (reference_patterns.getD i []) (estimated_patterns.getD j [])).2.2
      then some (i, j) else none))

/-- The `O_PR[:, :, 0]` (occurrence-precision) entry of a pattern pair. -/
def opP (reference_patterns estimated_patterns : PatternCollection)
    (thres : ℚ) (r c : Nat) : ℚ :=
  (occPairTotal thres (reference_patterns.getD r []) (estimated_patterns.getD c [])).1

/-- The `O_PR[:, :, 1]` (occurrence-recall) entry of a pattern pair. -/
def opR (reference_patterns estimated_patterns : PatternCollection)
    (thres : ℚ) (r c : Nat) : ℚ :=
  (occPairTotal thres (reference_patterns.getD r []) (estimated_patterns.getD c [])).2.1

/-- The occurrence precision that claim C6 describes: column maxima of the
relevant submatrix averaged over the DISTINCT columns having a relevant
entry (the code instead averages with one term per relevant pair). -/
def claimDistinctPrecision (reference_patterns estimated_patterns : PatternCollection)
    (thres : ℚ) : ℚ :=
  let rel := relPairsTotal reference_patterns estimated_patterns thres
  let rows := (rel.map Prod.fst).dedup
  let cols := (rel.map Prod.snd).dedup
  npMean (cols.map (fun c =>
    listMax (rows.map (fun r => opP reference_patterns estimated_patterns thres r c))))

/-- The relation claim C9 denies of its witness pair: the estimated prototype
is the reference prototype shifted by one constant (onset, pitch) offset. -/
def isTranslationOf (P Q : Occurrence) : Prop :=
  ∃ dt dp : ℚ, Q = P.map (fun e => [e.getD 0 0 + dt, e.getD 1 0 + dp])

/-! ### Lemmas about the numpy-style reductions -/

theorem listMax_cons {x : ℚ} {l : List ℚ} (h : l ≠ []) :
    listMax (x :: l) = max x (listMax l) := by
  cases l with
  | nil => exact absurd rfl h
  | cons y t => rfl

theorem listMax_mem : ∀ {l : List ℚ}, l ≠ [] → listMax l ∈ l
  | [x], _ => by simp [listMax]
  | x :: y :: t, _ => by
    rw [listMax_cons (List.cons_ne_nil y t)]
    rcases max_choice x (listMax (y :: t)) with h | h
    · rw [h]; exact List.mem_cons_self x (y :: t)
    · rw [h]; exact List.mem_cons_of_mem x (listMax_mem (List.cons_ne_nil y t))

theorem le_listMax : ∀ {l : List ℚ} {x : ℚ}, x ∈ l → x ≤ listMax l
  | [y], x, hx => by simp_all [listMax]
  | y :: z :: t, x, hx => by
    rw [listMax_cons (List.cons_ne_nil z t)]
    rcases List.mem_cons.mp hx with rfl | hx
    · exact le_max_left _ _
    · exact le_trans (le_listMax hx) (le_max_right _ _)

theorem listMax_le {l : List ℚ} {b : ℚ} (h0 : 0 ≤ b) (h : ∀ x ∈ l, x ≤ b) :
    listMax l ≤ b := by
  cases l with
  | nil => exact h0
  | cons x t => exact h _ (listMax_mem (List.cons_ne_nil x t))

theorem listMax_nonneg {l : List ℚ} (h : ∀ x ∈ l, 0 ≤ x) : 0 ≤ listMax l := by
  cases l with
  | nil => exact le_refl 0
  | cons x t => exact h _ (listMax_mem (List.cons_ne_nil x t))

theorem listMax_eq_of_mem_of_le {l : List ℚ} {b : ℚ} (hmem : b ∈ l)
    (hle : ∀ x ∈ l, x ≤ b) : listMax l = b := by
  have hne : l ≠ [] := List.ne_nil_of_mem hmem
  exact le_antisymm (hle _ (listMax_mem hne)) (le_listMax hmem)

theorem npMean_nonneg {l : List ℚ} (h : ∀ x ∈ l, 0 ≤ x) : 0 ≤ npMean l :=
  div_nonneg (List.sum_nonneg h) (Nat.cast_nonneg _)

theorem npMean_le_one {l : List ℚ} (h : ∀ x ∈ l, x ≤ 1) : npMean l ≤ 1 := by
  cases l with
  | nil => simp [npMean]
  | cons x t =>
    have hlen : (0 : ℚ) < ((x :: t).length : ℚ) := by
      exact_mod_cast Nat.succ_pos t.length
    have hsum : (x :: t).sum ≤ ((x :: t).length : ℚ) := by
      have := List.sum_le_card_nsmul (x :: t) 1 h
      simpa using this
    rw [npMean, div_le_one hlen]
    exact hsum

theorem npMean_all_eq {l : List ℚ} {c : ℚ} (hne : l ≠ []) (h : ∀ x ∈ l, x = c) :
    npMean l = c := by
  have hsum : l.sum = (l.length : ℚ) * c := by
    induction l with
    | nil => simp
    | cons x t ih =>
      rcases List.eq_nil_or_concat t with rfl | _
      · simp [h x (List.mem_cons_self x [])]
      · have hx : x = c := h x (List.mem_cons_self x t)
        have ht : t.sum = (t.length : ℚ) * c :=
          ih (by rintro rfl; simp_all) (fun y hy => h y (List.mem_cons_of_mem x hy))
        simp [hx, ht, List.length_cons]
        ring
  have hlen : ((l.length : ℚ)) ≠ 0 := by
    have : l.length ≠ 0 := fun h0 => hne (List.length_eq_zero.mp h0)
    exact_mod_cast this
  rw [npMean, hsum, mul_comm, mul_div_assoc, div_self hlen, mul_one]

theorem mem_zipWith {α β γ : Type} {f : α → β → γ} :
    ∀ {a : List α} {b : List β} {x : γ}, x ∈ List.zipWith f a b →
      ∃ y ∈ a, ∃ z ∈ b, x = f y z
  | y :: a, z :: b, x, hx => by
    rcases List.mem_cons.mp hx with rfl | hx
    · exact ⟨y, List.mem_cons_self _ _, z, List.mem_cons_self _ _, rfl⟩
    · obtain ⟨y', hy', z', hz', rfl⟩ := mem_zipWith hx
      exact ⟨y', List.mem_cons_of_mem _ hy', z', List.mem_cons_of_mem _ hz', rfl⟩

theorem zipWith_map_same {α γ δ : Type} (f : γ → γ → δ) (g h : α → γ) :
    ∀ (l : List α), List.zipWith f (l.map g) (l.map h) = l.map (fun x => f (g x) (h x))
  | [] => rfl
  | x :: t => by simp [zipWith_map_same f g h t]

theorem colMaxima_cons {row : List ℚ} {m : List (List ℚ)} (h : m ≠ []) :
    colMaxima (row :: m) = List.zipWith max row (colMaxima m) := by
  cases m with
  | nil => exact absurd rfl h
  | cons r t => rfl

theorem colMaxima_map_map {α β : Type} (g : α → β → ℚ) :
    ∀ (l₁ : List α) (l₂ : List β), l₁ ≠ [] →
      colMaxima (l₁.map (fun a => l₂.map (fun b => g a b))) =
        l₂.map (fun b => listMax (l₁.map (fun a => g a b)))
  | [a], l₂, _ => by
    simp only [List.map_cons, List.map_nil, colMaxima]
    exact (List.map_congr_left (fun b _ => by simp [listMax])).symm
  | a :: a' :: t, l₂, _ => by
    have ih := colMaxima_map_map g (a' :: t) l₂ (List.cons_ne_nil a' t)
    simp only [List.map_cons] at ih ⊢
    rw [colMaxima_cons (by simp), ih, zipWith_map_same]
    refine List.map_congr_left (fun b _ => ?_)
    rfl

theorem colMaxima_entry_bounds {lo hi : ℚ} :
    ∀ {m : List (List ℚ)}, (∀ row ∈ m, ∀ x ∈ row, lo ≤ x ∧ x ≤ hi) →
      ∀ x ∈ colMaxima m, lo ≤ x ∧ x ≤ hi
  | [], _, x, hx => by simp [colMaxima] at hx
  | [row], h, x, hx => h row (List.mem_cons_self _ _) x hx
  | row :: row' :: t, h, x, hx => by
    rw [colMaxima_cons (List.cons_ne_nil row' t)] at hx
    obtain ⟨y, hy, z, hz, rfl⟩ := mem_zipWith hx
    have hyb := h row (List.mem_cons_self _ _) y hy
    have hzb := colMaxima_entry_bounds
      (fun r hr => h r (List.mem_cons_of_mem _ hr)) z hz
    exact ⟨le_max_of_le_left hyb.1, max_le hyb.2 hzb.2⟩

theorem f_measure_nonneg {p r : ℚ} (hp : 0 ≤ p) (hr : 0 ≤ r) : 0 ≤ f_measure p r := by
  rw [f_measure]
  split
  · positivity
  · exact le_refl 0

theorem f_measure_le_one {p r : ℚ} (hp : 0 ≤ p) (hp1 : p ≤ 1) (hr : 0 ≤ r) (hr1 : r ≤ 1) :
    f_measure p r ≤ 1 := by
  rw [f_measure]
  split
  · rw [div_le_one (by assumption)]
    nlinarith
  · exact zero_le_one

theorem f_measure_one_one : f_measure 1 1 = 1 := by norm_num [f_measure]

/-! ### Lemmas about `exceptMap` -/

theorem exceptMap_ok_eq_map {α β : Type} {f : α → Except String β} {g : α → β}
    (hg : ∀ a b, f a = .ok b → b = g a) :
    ∀ {l : List α} {bs : List β}, exceptMap f l = .ok bs → bs = l.map g
  | [], bs, h => by simpa [exceptMap] using h.symm
  | a :: l, bs, h => by
    rw [exceptMap] at h
    cases hfa : f a with
    | error e => rw [hfa] at h; exact absurd h (by simp)
    | ok b =>
      rw [hfa] at h
      cases hrest : exceptMap f l with
      | error e => rw [hrest] at h; exact absurd h (by simp)
      | ok bs' =>
        rw [hrest] at h
        have hb : b = g a := hg a b hfa
        have hbs : bs = b :: bs' := by simpa using h.symm
        rw [hbs, hb, List.map_cons, exceptMap_ok_eq_map hg hrest]

theorem exceptMap_eq_ok_of {α β : Type} {f : α → Except String β} {g : α → β} :
    ∀ {l : List α}, (∀ a ∈ l, f a = .ok (g a)) → exceptMap f l = .ok (l.map g)
  | [], _ => rfl
  | a :: l, h => by
    rw [exceptMap, h a (List.mem_cons_self a l),
      exceptMap_eq_ok_of (fun x hx => h x (List.mem_cons_of_mem a hx))]
    rfl

theorem exceptMap_ok_mem {α β : Type} {f : α → Except String β} :
    ∀ {l : List α} {bs : List β}, exceptMap f l = .ok bs →
      ∀ b ∈ bs, ∃ a ∈ l, f a = .ok b
  | [], bs, h, b, hb => by
    simp only [exceptMap] at h
    obtain rfl : ([] : List β) = bs := by simpa using h
    simp at hb
  | a :: l, bs, h, b, hb => by
    rw [exceptMap] at h
    cases hfa : f a with
    | error e => rw [hfa] at h; exact absurd h (by simp)
    | ok b' =>
      rw [hfa] at h
      cases hrest : exceptMap f l with
      | error e => rw [hrest] at h; exact absurd h (by simp)
      | ok bs' =>
        rw [hrest] at h
        have hbs : b' :: bs' = bs := by simpa using h
        rw [← hbs] at hb
        rcases List.mem_cons.mp hb with rfl | hb
        · exact ⟨a, List.mem_cons_self a l, hfa⟩
        · obtain ⟨a', ha', hfa'⟩ := exceptMap_ok_mem hrest b hb
          exact ⟨a', List.mem_cons_of_mem a ha', hfa'⟩

/-! ### Lemmas about the cardinality score -/

theorem cardinality_score_ok_eq {occ_P occ_Q : Occurrence} {v : ℚ}
    (h : cardinality_score occ_P occ_Q = .ok v) : v = cardScoreTotal occ_P occ_Q := by
  rw [cardinality_score] at h
  split at h
  · exact absurd h (by simp)
  · rw [cardScoreTotal]
    exact (Except.ok.inj h).symm

theorem cardinality_score_eq_ok {occ_P occ_Q : Occurrence} (h : occ_P ≠ []) :
    cardinality_score occ_P occ_Q = .ok (cardScoreTotal occ_P occ_Q) := by
  rw [cardinality_score, cardScoreTotal]
  have hlen : occ_P.length ≠ 0 := fun h0 => h (List.length_eq_zero.mp h0)
  have hmax : max occ_P.length occ_Q.length ≠ 0 := by
    intro h0
    exact hlen (Nat.eq_zero_of_le_zero (h0 ▸ le_max_left _ _))
  rw [if_neg (by exact_mod_cast hmax)]

theorem cardScoreTotal_nonneg (occ_P occ_Q : Occurrence) : 0 ≤ cardScoreTotal occ_P occ_Q :=
  div_nonneg (Nat.cast_nonneg _) (Nat.cast_nonneg _)

theorem cardScoreTotal_le_one (occ_P occ_Q : Occurrence) : cardScoreTotal occ_P occ_Q ≤ 1 := by
  rw [cardScoreTotal]
  rcases Nat.eq_zero_or_pos (max occ_P.length occ_Q.length) with h0 | hpos
  · rw [h0]
    norm_num
  · rw [div_le_one (by exact_mod_cast hpos)]
    have hcard : (occurrence_intersection occ_P occ_Q).card ≤ max occ_P.length occ_Q.length := by
      calc (occurrence_intersection occ_P occ_Q).card
          ≤ occ_P.toFinset.card := Finset.card_le_card Finset.inter_subset_left
        _ ≤ occ_P.length := List.toFinset_card_le occ_P
        _ ≤ max occ_P.length occ_Q.length := le_max_left _ _
    exact_mod_cast hcard

theorem cardScoreTotal_self {o : Occurrence} (hne : o ≠ []) (hnd : o.Nodup) :
    cardScoreTotal o o = 1 := by
  rw [cardScoreTotal, occurrence_intersection, Finset.inter_self,
    List.toFinset_card_of_nodup hnd, max_self]
  have hlen : (o.length : ℚ) ≠ 0 := by
    have : o.length ≠ 0 := fun h0 => hne (List.length_eq_zero.mp h0)
    exact_mod_cast this
  exact div_self hlen

theorem compute_score_matrix_ok_eq {P Q : Pattern} {s : List (List ℚ)}
    (h : compute_score_matrix P Q "cardinality_score" = .ok s) :
    s = scoreMatrixTotal P Q := by
  rw [compute_score_matrix] at h
  simp only [if_pos rfl] at h
  refine exceptMap_ok_eq_map (fun a bs hbs => ?_) h
  exact exceptMap_ok_eq_map (fun b v hv => cardinality_score_ok_eq hv) hbs

theorem compute_score_matrix_eq_ok {P Q : Pattern} (h : ∀ occ_P ∈ P, occ_P ≠ []) :
    compute_score_matrix P Q "cardinality_score" = .ok (scoreMatrixTotal P Q) := by
  rw [compute_score_matrix]
  simp only [if_pos rfl]
  exact exceptMap_eq_ok_of (fun occ_P hP =>
    exceptMap_eq_ok_of (fun occ_Q _ => cardinality_score_eq_ok (h occ_P hP)))

theorem scoreMatrixTotal_entry_bounds {P Q : Pattern} :
    ∀ row ∈ scoreMatrixTotal P Q, ∀ x ∈ row, 0 ≤ x ∧ x ≤ 1 := by
  intro row hrow x hx
  rw [scoreMatrixTotal] at hrow
  obtain ⟨occ_P, _, rfl⟩ := List.mem_map.mp hrow
  obtain ⟨occ_Q, _, rfl⟩ := List.mem_map.mp hx
  exact ⟨cardScoreTotal_nonneg _ _, cardScoreTotal_le_one _ _⟩

theorem patternPairBest_nonneg (P Q : Pattern) : 0 ≤ patternPairBest P Q := by
  refine listMax_nonneg (fun x hx => ?_)
  obtain ⟨row, hrow, hxrow⟩ := List.mem_flatten.mp hx
  exact (scoreMatrixTotal_entry_bounds row hrow x hxrow).1

theorem patternPairBest_le_one (P Q : Pattern) : patternPairBest P Q ≤ 1 := by
  refine listMax_le zero_le_one (fun x hx => ?_)
  obtain ⟨row, hrow, hxrow⟩ := List.mem_flatten.mp hx
  exact (scoreMatrixTotal_entry_bounds row hrow x hxrow).2

/-! ### Lemmas about validation and `n_onset_midi` -/

theorem collectionError_eq_none_iff {patterns : PatternCollection} :
    collectionError patterns = none ↔
      ∀ pattern ∈ patterns, pattern ≠ [] ∧
        ∀ occ ∈ pattern, ∀ e ∈ occ, e.length = 2 := by
  rw [collectionError, List.findSome?_eq_none_iff]
  refine forall_congr' (fun pattern => forall_congr' (fun _ => ?_))
  constructor
  · intro h
    split at h
    · exact absurd h (by simp)
    · rename_i hne
      refine ⟨fun h0 => hne (by rw [h0]; rfl), ?_⟩
      intro occ hocc e he
      rw [List.findSome?_eq_none_iff] at h
      have := h occ hocc
      rw [List.findSome?_eq_none_iff] at this
      have := this e he
      by_contra hlen
      rw [if_pos hlen] at this
      exact absurd this (by simp)
  · rintro ⟨hne, h2⟩
    rw [if_neg (by simpa using fun h0 => hne (List.length_eq_zero.mp h0))]
    rw [List.findSome?_eq_none_iff]
    intro occ hocc
    rw [List.findSome?_eq_none_iff]
    intro e he
    rw [if_neg (by simp [h2 occ hocc e he])]

theorem collectionError_some_msg {patterns : PatternCollection} {e : String}
    (h : collectionError patterns = some e) :
    e = occurrenceErrorMsg ∨ e = tupleErrorMsg := by
  rw [collectionError] at h
  obtain ⟨pattern, _, hp⟩ := List.exists_of_findSome?_eq_some h
  split at hp
  · exact Or.inl (by simpa using hp.symm)
  · obtain ⟨occ, _, ho⟩ := List.exists_of_findSome?_eq_some hp
    obtain ⟨ev, _, hev⟩ := List.exists_of_findSome?_eq_some ho
    split at hev
    · exact Or.inr (by simpa using hev.symm)
    · exact absurd hev (by simp)

theorem validateError_eq_none_iff {r e : PatternCollection} :
    validateError r e = none ↔ collectionError r = none ∧ collectionError e = none := by
  rw [validateError]
  cases collectionError r <;> simp

theorem n_onset_midi_ne_zero {ps : PatternCollection} {p : Pattern} {o : Occurrence}
    (hp : p ∈ ps) (ho : o ∈ p) (hne : o ≠ []) : n_onset_midi ps ≠ 0 := by
  rw [n_onset_midi]
  have h1 : o.length ≤ (p.map List.length).sum :=
    List.le_sum_of_mem (List.mem_map_of_mem List.length ho)
  have h2 : (p.map List.length).sum ≤ (ps.map (fun pat => (pat.map List.length).sum)).sum :=
    List.le_sum_of_mem (List.mem_map_of_mem _ hp)
  have h3 : o.length ≠ 0 := fun h0 => hne (List.length_eq_zero.mp h0)
  omega

/-! ### Small `getD` helpers -/

theorem getD_pos {α : Type} {l : List α} {n : Nat} {d : α} (h : n < l.length) :
    l.getD n d = l.get ⟨n, h⟩ := by
  rw [List.getD_eq_getElem?_getD, List.getElem?_eq_getElem h]
  rfl

theorem getD_neg {α : Type} {l : List α} {n : Nat} {d : α} (h : l.length ≤ n) :
    l.getD n d = d := by
  rw [List.getD_eq_getElem?_getD, List.getElem?_eq_none h]
  rfl

theorem getD_mem_or {α : Type} (l : List α) (n : Nat) (d : α) :
    l.getD n d = d ∨ l.getD n d ∈ l := by
  rcases Nat.lt_or_ge n l.length with h | h
  · right
    rw [getD_pos h]
    exact List.get_mem l n h
  · left
    exact getD_neg h

theorem exceptMapFn_ok {α β : Type} {g : α → β} {x : Except String α} {b : β}
    (h : Except.map g x = .ok b) : ∃ v, x = .ok v ∧ b = g v := by
  cases x with
  | error e => exact absurd h (by simp [Except.map])
  | ok v => exact ⟨v, rfl, (Except.ok.inj h).symm⟩

theorem runValidated_ok {α : Type} {m : PatternCollection → PatternCollection → Except String α}
    {r e : PatternCollection} {x : α} (h : (runValidated m r e).2 = .ok x) : m r e = .ok x := by
  rw [runValidated] at h
  dsimp only at h
  cases hve : validateError r e with
  | some msg => rw [hve] at h; exact absurd h (by simp)
  | none => rw [hve] at h; exact h

/-! ### Entry bounds for every metric run that returns -/

theorem compute_score_matrix_ok_entry_bounds {P Q : Pattern} {sim : String}
    {s : List (List ℚ)} (h : compute_score_matrix P Q sim = .ok s) :
    ∀ row ∈ s, ∀ x ∈ row, 0 ≤ x ∧ x ≤ 1 := by
  intro row hrow x hx
  rw [compute_score_matrix] at h
  obtain ⟨occ_P, _, hrowok⟩ := exceptMap_ok_mem h row hrow
  obtain ⟨occ_Q, _, hcell⟩ := exceptMap_ok_mem hrowok x hx
  split at hcell
  · rw [cardinality_score_ok_eq hcell]
    exact ⟨cardScoreTotal_nonneg _ _, cardScoreTotal_le_one _ _⟩
  · exact absurd hcell (by simp)

theorem matrix_mean_bounds {S : List (List ℚ)} (h : ∀ row ∈ S, ∀ x ∈ row, 0 ≤ x ∧ x ≤ 1) :
    (0 ≤ npMean (colMaxima S) ∧ npMean (colMaxima S) ≤ 1) ∧
      (0 ≤ npMean (rowMaxima S) ∧ npMean (rowMaxima S) ≤ 1) := by
  constructor
  · have hb := colMaxima_entry_bounds h
    exact ⟨npMean_nonneg (fun x hx => (hb x hx).1), npMean_le_one (fun x hx => (hb x hx).2)⟩
  · have hb : ∀ x ∈ rowMaxima S, 0 ≤ x ∧ x ≤ 1 := by
      intro x hx
      obtain ⟨row, hrow, rfl⟩ := List.mem_map.mp hx
      exact ⟨listMax_nonneg (fun y hy => (h row hrow y hy).1),
        listMax_le zero_le_one (fun y hy => (h row hrow y hy).2)⟩
    exact ⟨npMean_nonneg (fun x hx => (hb x hx).1), npMean_le_one (fun x hx => (hb x hx).2)⟩

theorem ok_triple_inj {a b c f p r : ℚ}
    (h : (Except.ok (a, b, c) : Except String (ℚ × ℚ × ℚ)) = .ok (f, p, r)) :
    a = f ∧ b = p ∧ c = r := by
  have := Except.ok.inj h
  simp only [Prod.mk.injEq] at this
  exact this

theorem establishment_raw_ok_bounds {ref est : PatternCollection} {sim : String} {f p r : ℚ}
    (h : establishment_FPR_raw ref est sim = .ok (f, p, r)) :
    0 ≤ f ∧ f ≤ 1 ∧ 0 ≤ p ∧ p ≤ 1 ∧ 0 ≤ r ∧ r ≤ 1 := by
  rw [establishment_FPR_raw] at h
  split at h
  · obtain ⟨rfl, rfl, rfl⟩ : 0 = f ∧ 0 = p ∧ 0 = r := by
      have := Except.ok.inj h
      exact ⟨congrArg Prod.fst this, congrArg (fun t => t.2.1) this,
        congrArg (fun t => t.2.2) this⟩
    norm_num
  · cases hS : exceptMap (fun ref_pattern => exceptMap (fun est_pattern =>
        Except.map (fun s => listMax s.flatten)
          (compute_score_matrix ref_pattern est_pattern sim)) est) ref with
    | error e => rw [hS] at h; exact absurd h (by simp)
    | ok S =>
      rw [hS] at h
      have hSb : ∀ row ∈ S, ∀ x ∈ row, 0 ≤ x ∧ x ≤ 1 := by
        intro row hrow x hx
        obtain ⟨rp, _, hrowok⟩ := exceptMap_ok_mem hS row hrow
        obtain ⟨ep, _, hcell⟩ := exceptMap_ok_mem hrowok x hx
        obtain ⟨s, hs, rfl⟩ := exceptMapFn_ok hcell
        have hsb := compute_score_matrix_ok_entry_bounds hs
        refine ⟨listMax_nonneg (fun y hy => ?_), listMax_le zero_le_one (fun y hy => ?_)⟩
        · obtain ⟨row', hrow', hy'⟩ := List.mem_flatten.mp hy
          exact (hsb row' hrow' y hy').1
        · obtain ⟨row', hrow', hy'⟩ := List.mem_flatten.mp hy
          exact (hsb row' hrow' y hy').2
      obtain ⟨hmb1, hmb2⟩ := matrix_mean_bounds hSb
      obtain ⟨hf, hp, hr⟩ : f_measure (npMean (colMaxima S)) (npMean (rowMaxima S)) = f ∧
          npMean (colMaxima S) = p ∧ npMean (rowMaxima S) = r := by
        have := Except.ok.inj h
        exact ⟨congrArg Prod.fst this, congrArg (fun t => t.2.1) this,
          congrArg (fun t => t.2.2) this⟩
      rw [← hf, ← hp, ← hr]
      exact ⟨f_measure_nonneg hmb1.1 hmb2.1, f_measure_le_one hmb1.1 hmb1.2 hmb2.1 hmb2.2,
        hmb1.1, hmb1.2, hmb2.1, hmb2.2⟩

theorem compute_first_layer_PR_ok_bounds {ro eo : Occurrence} {p r : ℚ}
    (h : compute_first_layer_PR ro eo = .ok (p, r)) :
    0 ≤ p ∧ p ≤ 1 ∧ 0 ≤ r ∧ r ≤ 1 := by
  rw [compute_first_layer_PR] at h
  split at h
  · exact absurd h (by simp)
  · split at h
    · exact absurd h (by simp)
    · rename_i hro heo
      obtain ⟨hp, hr⟩ :
          ((occurrence_intersection ro eo).card : ℚ) / (ro.length : ℚ) = p ∧
          ((occurrence_intersection ro eo).card : ℚ) / (eo.length : ℚ) = r := by
        have := Except.ok.inj h
        exact ⟨congrArg Prod.fst this, congrArg Prod.snd this⟩
      have hroc : (occurrence_intersection ro eo).card ≤ ro.length :=
        le_trans (Finset.card_le_card Finset.inter_subset_left) (List.toFinset_card_le ro)
      have heoc : (occurrence_intersection ro eo).card ≤ eo.length :=
        le_trans (Finset.card_le_card Finset.inter_subset_right) (List.toFinset_card_le eo)
      have hrop : (0 : ℚ) < (ro.length : ℚ) := by
        have : 0 < ro.length := Nat.pos_of_ne_zero hro
        exact_mod_cast this
      have heop : (0 : ℚ) < (eo.length : ℚ) := by
        have : 0 < eo.length := Nat.pos_of_ne_zero heo
        exact_mod_cast this
      refine ⟨?_, ?_, ?_, ?_⟩
      · rw [← hp]; positivity
      · rw [← hp, div_le_one hrop]; exact_mod_cast hroc
      · rw [← hr]; positivity
      · rw [← hr, div_le_one heop]; exact_mod_cast heoc

theorem compute_layer1_ok_entry_bounds {rp ep : Pattern} {F1 : List (List ℚ)}
    (h : compute_layer1 rp ep = .ok F1) : ∀ row ∈ F1, ∀ x ∈ row, 0 ≤ x ∧ x ≤ 1 := by
  intro row hrow x hx
  rw [compute_layer1] at h
  obtain ⟨ro, _, hrowok⟩ := exceptMap_ok_mem h row hrow
  obtain ⟨eo, _, hcell⟩ := exceptMap_ok_mem hrowok x hx
  obtain ⟨⟨p, r⟩, hpr, rfl⟩ := exceptMapFn_ok hcell
  obtain ⟨h1, h2, h3, h4⟩ := compute_first_layer_PR_ok_bounds hpr
  exact ⟨f_measure_nonneg h1 h3, f_measure_le_one h1 h2 h3 h4⟩

theorem compute_second_layer_PR_ok_bounds {rp ep : Pattern} {p r : ℚ}
    (h : compute_second_layer_PR rp ep = .ok (p, r)) :
    0 ≤ p ∧ p ≤ 1 ∧ 0 ≤ r ∧ r ≤ 1 := by
  rw [compute_second_layer_PR] at h
  obtain ⟨F1, hF1, hpr⟩ := exceptMapFn_ok h
  obtain ⟨hmb1, hmb2⟩ := matrix_mean_bounds (compute_layer1_ok_entry_bounds hF1)
  obtain ⟨hp, hr⟩ : npMean (colMaxima F1) = p ∧ npMean (rowMaxima F1) = r := by
    have := congrArg Prod.fst hpr
    have := congrArg Prod.snd hpr
    exact ⟨(congrArg Prod.fst hpr).symm, (congrArg Prod.snd hpr).symm⟩
  rw [← hp, ← hr]
  exact ⟨hmb1.1, hmb1.2, hmb2.1, hmb2.2⟩

theorem compute_layer2_ok_entry_bounds {ref est : PatternCollection} {F2 : List (List ℚ)}
    (h : compute_layer2 ref est = .ok F2) : ∀ row ∈ F2, ∀ x ∈ row, 0 ≤ x ∧ x ≤ 1 := by
  intro row hrow x hx
  rw [compute_layer2] at h
  obtain ⟨rp, _, hrowok⟩ := exceptMap_ok_mem h row hrow
  obtain ⟨ep, _, hcell⟩ := exceptMap_ok_mem hrowok x hx
  obtain ⟨⟨p, r⟩, hpr, rfl⟩ := exceptMapFn_ok hcell
  obtain ⟨h1, h2, h3, h4⟩ := compute_second_layer_PR_ok_bounds hpr
  exact ⟨f_measure_nonneg h1 h3, f_measure_le_one h1 h2 h3 h4⟩

theorem occPairData_ok_bounds {thres : ℚ} {sim : String} {rp ep : Pattern} {b : ℚ × ℚ × Bool}
    (h : occPairData thres sim rp ep = .ok b) :
    (0 ≤ b.1 ∧ b.1 ≤ 1) ∧ (0 ≤ b.2.1 ∧ b.2.1 ≤ 1) := by
  rw [occPairData] at h
  obtain ⟨s, hs, rfl⟩ := exceptMapFn_ok h
  obtain ⟨hmb1, hmb2⟩ := matrix_mean_bounds (compute_score_matrix_ok_entry_bounds hs)
  split
  · exact ⟨hmb1, hmb2⟩
  · norm_num

theorem occurrence_raw_ok_bounds {ref est : PatternCollection} {thres : ℚ} {sim : String}
    {f p r : ℚ} (h : occurrence_FPR_raw ref est thres sim = .ok (f, p, r)) :
    0 ≤ f ∧ f ≤ 1 ∧ 0 ≤ p ∧ p ≤ 1 ∧ 0 ≤ r ∧ r ≤ 1 := by
  rw [occurrence_FPR_raw] at h
  split at h
  · obtain ⟨rfl, rfl, rfl⟩ : 0 = f ∧ 0 = p ∧ 0 = r := by
      have := Except.ok.inj h
      exact ⟨congrArg Prod.fst this, congrArg (fun t => t.2.1) this,
        congrArg (fun t => t.2.2) this⟩
    norm_num
  · cases hM : exceptMap (fun ref_pattern =>
        exceptMap (occPairData thres sim ref_pattern) est) ref with
    | error e => rw [hM] at h; exact absurd h (by simp)
    | ok M =>
      rw [hM] at h
      dsimp only at h
      have hentry : ∀ rr cc, (0 ≤ ((M.getD rr []).getD cc (0, 0, false)).1 ∧
          ((M.getD rr []).getD cc (0, 0, false)).1 ≤ 1) ∧
          (0 ≤ ((M.getD rr []).getD cc (0, 0, false)).2.1 ∧
          ((M.getD rr []).getD cc (0, 0, false)).2.1 ≤ 1) := by
        intro rr cc
        rcases getD_mem_or M rr [] with hrow | hrow
        · rw [hrow]
          rcases getD_mem_or ([] : List (ℚ × ℚ × Bool)) cc (0, 0, false) with hc | hc
          · rw [hc]; norm_num
          · simp at hc
        · rcases getD_mem_or (M.getD rr []) cc (0, 0, false) with hc | hc
          · rw [hc]; norm_num
          · obtain ⟨rp, _, hrowok⟩ := exceptMap_ok_mem hM _ hrow
            obtain ⟨ep, _, hcell⟩ := exceptMap_ok_mem hrowok _ hc
            exact occPairData_ok_bounds hcell
      split at h
      · obtain ⟨hf, rfl, rfl⟩ : f_measure 0 0 = f ∧ 0 = p ∧ 0 = r := by
          have := Except.ok.inj h
          exact ⟨congrArg Prod.fst this, congrArg (fun t => t.2.1) this,
            congrArg (fun t => t.2.2) this⟩
        have : f_measure 0 0 = 0 := by norm_num [f_measure]
        rw [this] at hf
        rw [← hf]
        norm_num
      · obtain ⟨hf, hp, hr⟩ := ok_triple_inj h
        have hpb : 0 ≤ p ∧ p ≤ 1 := by
          rw [← hp]
          constructor
          · refine npMean_nonneg (fun x hx => ?_)
            obtain ⟨c, _, rfl⟩ := List.mem_map.mp hx
            refine listMax_nonneg (fun y hy => ?_)
            obtain ⟨rr, _, rfl⟩ := List.mem_map.mp hy
            exact ((hentry rr c).1).1
          · refine npMean_le_one (fun x hx => ?_)
            obtain ⟨c, _, rfl⟩ := List.mem_map.mp hx
            refine listMax_le zero_le_one (fun y hy => ?_)
            obtain ⟨rr, _, rfl⟩ := List.mem_map.mp hy
            exact ((hentry rr c).1).2
        have hrb : 0 ≤ r ∧ r ≤ 1 := by
          rw [← hr]
          constructor
          · refine npMean_nonneg (fun x hx => ?_)
            obtain ⟨rr, _, rfl⟩ := List.mem_map.mp hx
            refine listMax_nonneg (fun y hy => ?_)
            obtain ⟨c, _, rfl⟩ := List.mem_map.mp hy
            exact ((hentry rr c).2).1
          · refine npMean_le_one (fun x hx => ?_)
            obtain ⟨rr, _, rfl⟩ := List.mem_map.mp hx
            refine listMax_le zero_le_one (fun y hy => ?_)
            obtain ⟨c, _, rfl⟩ := List.mem_map.mp hy
            exact ((hentry rr c).2).2
        refine ⟨?_, ?_, hpb.1, hpb.2, hrb.1, hrb.2⟩
        · rw [← hf, hp, hr]
          exact f_measure_nonneg hpb.1 hrb.1
        · rw [← hf, hp, hr]
          exact f_measure_le_one hpb.1 hpb.2 hrb.1 hrb.2

theorem three_layer_raw_ok_bounds {ref est : PatternCollection} {f p r : ℚ}
    (h : three_layer_FPR_raw ref est = .ok (f, p, r)) :
    0 ≤ f ∧ f ≤ 1 ∧ 0 ≤ p ∧ p ≤ 1 ∧ 0 ≤ r ∧ r ≤ 1 := by
  rw [three_layer_FPR_raw] at h
  split at h
  · obtain ⟨rfl, rfl, rfl⟩ : 0 = f ∧ 0 = p ∧ 0 = r := by
      have := Except.ok.inj h
      exact ⟨congrArg Prod.fst this, congrArg (fun t => t.2.1) this,
        congrArg (fun t => t.2.2) this⟩
    norm_num
  · obtain ⟨F2, hF2, htuple⟩ := exceptMapFn_ok h
    obtain ⟨hmb1, hmb2⟩ := matrix_mean_bounds (compute_layer2_ok_entry_bounds hF2)
    obtain ⟨hf, hp, hr⟩ : f = f_measure (npMean (colMaxima F2)) (npMean (rowMaxima F2)) ∧
        p = npMean (colMaxima F2) ∧ r = npMean (rowMaxima F2) := by
      exact ⟨congrArg Prod.fst htuple, congrArg (fun t => t.2.1) htuple,
        congrArg (fun t => t.2.2) htuple⟩
    rw [hf, hp, hr]
    exact ⟨f_measure_nonneg hmb1.1 hmb2.1, f_measure_le_one hmb1.1 hmb1.2 hmb2.1 hmb2.2,
      hmb1.1, hmb1.2, hmb2.1, hmb2.2⟩

theorem standard_raw_bounds {ref est : PatternCollection} {tol f p r : ℚ}
    (h : standard_FPR_raw ref est tol = (f, p, r)) :
    0 ≤ f ∧ 0 ≤ p ∧ 0 ≤ r ∧ r ≤ 1 := by
  rw [standard_FPR_raw] at h
  split at h
  · simp only [Prod.mk.injEq] at h
    obtain ⟨rfl, rfl, rfl⟩ := h
    norm_num
  · rename_i hguard
    simp only [Prod.mk.injEq] at h
    obtain ⟨hf, hp, hr⟩ := h
    have hrefpos : 0 < ref.length := by
      cases ref with
      | nil => exact absurd (Or.inl rfl) hguard
      | cons a t => simp
    have hk : stdMatches tol ref est ≤ ref.length := by
      rw [stdMatches]
      exact List.countP_le_length _
    have hp0 : 0 ≤ (stdMatches tol ref est : ℚ) / (est.length : ℚ) :=
      div_nonneg (Nat.cast_nonneg _) (Nat.cast_nonneg _)
    have hr0 : 0 ≤ (stdMatches tol ref est : ℚ) / (ref.length : ℚ) :=
      div_nonneg (Nat.cast_nonneg _) (Nat.cast_nonneg _)
    have hr1 : (stdMatches tol ref est : ℚ) / (ref.length : ℚ) ≤ 1 := by
      rw [div_le_one (by exact_mod_cast hrefpos)]
      exact_mod_cast hk
    refine ⟨?_, ?_, ?_, ?_⟩
    · rw [← hf]; exact f_measure_nonneg hp0 hr0
    · rw [← hp]; exact hp0
    · rw [← hr]; exact hr0
    · rw [← hr]; exact hr1

theorem first_n_three_layer_raw_ok {ref est : PatternCollection} {n : Nat} {v : MetricValue}
    (h : first_n_three_layer_P_raw ref est n = .ok v) :
    v = .triple 0 0 0 ∨ ∃ x, v = .single x ∧ 0 ≤ x ∧ x ≤ 1 := by
  rw [first_n_three_layer_P_raw] at h
  split at h
  · left
    exact (Except.ok.inj h).symm
  · dsimp only at h
    cases hin : (three_layer_FPR ref (est.take (min est.length n))).2 with
    | error e => rw [hin] at h; exact absurd h (by simp)
    | ok fpr =>
      obtain ⟨f', p', r'⟩ := fpr
      rw [hin] at h
      right
      refine ⟨p', (Except.ok.inj h).symm, ?_⟩
      obtain ⟨_, _, h3, h4, _, _⟩ := three_layer_raw_ok_bounds (runValidated_ok hin)
      exact ⟨h3, h4⟩

theorem first_n_target_proportion_raw_ok {ref est : PatternCollection} {n : Nat}
    {v : MetricValue} (h : first_n_target_proportion_R_raw ref est n = .ok v) :
    v = .triple 0 0 0 ∨ ∃ x, v = .single x ∧ 0 ≤ x ∧ x ≤ 1 := by
  rw [first_n_target_proportion_R_raw] at h
  split at h
  · left
    exact (Except.ok.inj h).symm
  · dsimp only at h
    cases hin : (establishment_FPR ref (est.take (min est.length n)) "cardinality_score").2 with
    | error e => rw [hin] at h; exact absurd h (by simp)
    | ok fpr =>
      obtain ⟨f', p', r'⟩ := fpr
      rw [hin] at h
      right
      refine ⟨r', (Except.ok.inj h).symm, ?_⟩
      obtain ⟨_, _, _, _, h5, h6⟩ := establishment_raw_ok_bounds (runValidated_ok hin)
      exact ⟨h5, h6⟩

/-! ### Characterization of the establishment metric (main branch) -/

theorem establishment_raw_main {ref est : PatternCollection} {f p r : ℚ}
    (href : n_onset_midi ref ≠ 0) (hest : n_onset_midi est ≠ 0)
    (h : establishment_FPR_raw ref est "cardinality_score" = .ok (f, p, r)) :
    p = specEstablishmentPrecision ref est ∧ r = specEstablishmentRecall ref est ∧
      f = f_measure p r := by
  rw [establishment_FPR_raw, if_neg (by tauto)] at h
  cases hS : exceptMap (fun ref_pattern => exceptMap (fun est_pattern =>
      Except.map (fun s => listMax s.flatten)
        (compute_score_matrix ref_pattern est_pattern "cardinality_score"))
      est) ref with
  | error e => rw [hS] at h; exact absurd h (by simp)
  | ok S =>
    rw [hS] at h
    have hSeq : S = ref.map (fun rp => est.map (fun ep => patternPairBest rp ep)) := by
      refine exceptMap_ok_eq_map (fun rp bs hbs => ?_) hS
      refine exceptMap_ok_eq_map (fun ep b hb => ?_) hbs
      obtain ⟨s, hs, rfl⟩ := exceptMapFn_ok hb
      rw [compute_score_matrix_ok_eq hs, patternPairBest]
    obtain ⟨hf, hp, hr⟩ := ok_triple_inj h
    have hrefne : ref ≠ [] := fun h0 => href (by rw [h0]; rfl)
    subst hSeq
    refine ⟨?_, ?_, ?_⟩
    · rw [← hp, colMaxima_map_map (fun rp ep => patternPairBest rp ep) ref est hrefne,
        npMean, specEstablishmentPrecision, List.length_map]
    · rw [← hr, rowMaxima, List.map_map, npMean, specEstablishmentRecall, List.length_map]
      rfl
    · rw [← hf, hp, hr]

/-! ### Evaluation of the occurrence metric on score-matrix-safe inputs -/

theorem flatMap_congr_left {α β : Type} {l : List α} {f g : α → List β}
    (h : ∀ a ∈ l, f a = g a) : l.flatMap f = l.flatMap g := by
  rw [List.flatMap_def, List.flatMap_def, List.map_congr_left h]

theorem filterMap_congr_left {α β : Type} {l : List α} {f g : α → Option β}
    (h : ∀ a ∈ l, f a = g a) : l.filterMap f = l.filterMap g := by
  induction l with
  | nil => rfl
  | cons a t ih =>
    simp only [List.filterMap_cons, h a (List.mem_cons_self a t),
      ih (fun x hx => h x (List.mem_cons_of_mem a hx))]

theorem getD_elem {α : Type} {l : List α} {n : Nat} {d : α} (h : n < l.length) :
    l.getD n d = l[n] := by
  rw [List.getD_eq_getElem?_getD, List.getElem?_eq_getElem h]
  rfl

theorem occPairData_eq_ok {thres : ℚ} {rp ep : Pattern} (h : ∀ o ∈ rp, o ≠ []) :
    occPairData thres "cardinality_score" rp ep = .ok (occPairTotal thres rp ep) := by
  rw [occPairData, compute_score_matrix_eq_ok h]
  rfl

theorem entry_map_map {thres : ℚ} {ref est : PatternCollection} {i j : Nat}
    (hi : i < ref.length) (hj : j < est.length) :
    ((ref.map (fun rp => est.map (occPairTotal thres rp))).getD i []).getD j (0, 0, false) =
      occPairTotal thres (ref.getD i []) (est.getD j []) := by
  have hi' : i < (ref.map (fun rp => est.map (occPairTotal thres rp))).length := by
    simpa using hi
  rw [getD_elem hi']
  simp only [List.getElem_map]
  have hj' : j < (est.map (occPairTotal thres (ref[i]))).length := by simpa using hj
  rw [getD_elem hj']
  simp only [List.getElem_map]
  rw [getD_elem hi, getD_elem hj]

theorem mem_relPairsTotal {ref est : PatternCollection} {thres : ℚ} {i j : Nat} :
    (i, j) ∈ relPairsTotal ref est thres ↔
      i < ref.length ∧ j < est.length ∧
        (occPairTotal thres (ref.getD i []) (est.getD j [])).2.2 = true := by
  rw [relPairsTotal]
  simp only [List.mem_flatMap, List.mem_filterMap, List.mem_range]
  constructor
  · rintro ⟨a, ha, b, hb, hab⟩
    split at hab
    · obtain ⟨rfl, rfl⟩ : a = i ∧ b = j := by
        have := Option.some.inj hab
        simpa [Prod.mk.injEq] using this
      exact ⟨ha, hb, by assumption⟩
    · exact absurd hab (by simp)
  · rintro ⟨hi, hj, hrel⟩
    exact ⟨i, hi, j, hj, by rw [if_pos hrel]⟩

theorem occurrence_raw_eval {ref est : PatternCollection} {thres : ℚ}
    (hocc : ∀ rp ∈ ref, ∀ o ∈ rp, o ≠ [])
    (hguard : ¬(n_onset_midi ref = 0 ∨ n_onset_midi est = 0)) :
    occurrence_FPR_raw ref est thres "cardinality_score" =
      (if relPairsTotal ref est thres = [] then .ok (f_measure 0 0, 0, 0)
       else
         .ok (f_measure
            (npMean (((relPairsTotal ref est thres).map Prod.snd).map (fun c =>
              listMax (((relPairsTotal ref est thres).map Prod.fst).map (fun rr =>
                opP ref est thres rr c)))))
            (npMean (((relPairsTotal ref est thres).map Prod.fst).map (fun rr =>
              listMax (((relPairsTotal ref est thres).map Prod.snd).map (fun c =>
                opR ref est thres rr c))))),
          npMean (((relPairsTotal ref est thres).map Prod.snd).map (fun c =>
            listMax (((relPairsTotal ref est thres).map Prod.fst).map (fun rr =>
              opP ref est thres rr c)))),
          npMean (((relPairsTotal ref est thres).map Prod.fst).map (fun rr =>
            listMax (((relPairsTotal ref est thres).map Prod.snd).map (fun c =>
              opR ref est thres rr c)))))) := by
  have hM : exceptMap (fun ref_pattern =>
      exceptMap (occPairData thres "cardinality_score" ref_pattern) est) ref =
      .ok (ref.map (fun rp => est.map (occPairTotal thres rp))) :=
    exceptMap_eq_ok_of (fun rp hrp =>
      exceptMap_eq_ok_of (fun ep _ => occPairData_eq_ok (hocc rp hrp)))
  rw [occurrence_FPR_raw, if_neg hguard, hM]
  dsimp only
  have hrel : ((List.range ref.length).flatMap (fun i =>
      (List.range est.length).filterMap (fun j =>
        if (((ref.map (fun rp => est.map (occPairTotal thres rp))).getD i []).getD j
            (0, 0, false)).2.2 then some (i, j) else none))) =
      relPairsTotal ref est thres := by
    rw [relPairsTotal]
    refine flatMap_congr_left (fun i hi => ?_)
    refine filterMap_congr_left (fun j hj => ?_)
    rw [entry_map_map (List.mem_range.mp hi) (List.mem_range.mp hj)]
  rw [hrel]
  split
  · rfl
  · have hP : ((relPairsTotal ref est thres).map Prod.snd).map (fun c =>
        listMax (((relPairsTotal ref est thres).map Prod.fst).map (fun rr =>
          (((ref.map (fun rp => est.map (occPairTotal thres rp))).getD rr []).getD c
            (0, 0, false)).1))) =
        ((relPairsTotal ref est thres).map Prod.snd).map (fun c =>
          listMax (((relPairsTotal ref est thres).map Prod.fst).map (fun rr =>
            opP ref est thres rr c))) := by
      refine List.map_congr_left (fun c hc => ?_)
      refine congrArg listMax (List.map_congr_left (fun rr hrr => ?_))
      obtain ⟨pr, hpr, rfl⟩ := List.mem_map.mp hc
      obtain ⟨pr2, hpr2, rfl⟩ := List.mem_map.mp hrr
      obtain ⟨a, b⟩ := pr
      obtain ⟨a2, b2⟩ := pr2
      have hj : b < est.length := (mem_relPairsTotal.mp hpr).2.1
      have hi : a2 < ref.length := (mem_relPairsTotal.mp hpr2).1
      rw [entry_map_map hi hj]
      rfl
    have hR : ((relPairsTotal ref est thres).map Prod.fst).map (fun rr =>
        listMax (((relPairsTotal ref est thres).map Prod.snd).map (fun c =>
          (((ref.map (fun rp => est.map (occPairTotal thres rp))).getD rr []).getD c
            (0, 0, false)).2.1))) =
        ((relPairsTotal ref est thres).map Prod.fst).map (fun rr =>
          listMax (((relPairsTotal ref est thres).map Prod.snd).map (fun c =>
            opR ref est thres rr c))) := by
      refine List.map_congr_left (fun rr hrr => ?_)
      refine congrArg listMax (List.map_congr_left (fun c hc => ?_))
      obtain ⟨pr, hpr, rfl⟩ := List.mem_map.mp hrr
      obtain ⟨pr2, hpr2, rfl⟩ := List.mem_map.mp hc
      obtain ⟨a, b⟩ := pr
      obtain ⟨a2, b2⟩ := pr2
      have hi : a < ref.length := (mem_relPairsTotal.mp hpr).1
      have hj : b2 < est.length := (mem_relPairsTotal.mp hpr2).2.1
      rw [entry_map_map hi hj]
      rfl
    rw [hP, hR]

theorem occPairTotal_bounds (thres : ℚ) (rp ep : Pattern) :
    (0 ≤ (occPairTotal thres rp ep).1 ∧ (occPairTotal thres rp ep).1 ≤ 1) ∧
      (0 ≤ (occPairTotal thres rp ep).2.1 ∧ (occPairTotal thres rp ep).2.1 ≤ 1) := by
  rw [occPairTotal]
  split
  · exact matrix_mean_bounds scoreMatrixTotal_entry_bounds
  · norm_num

theorem occPairTotal_self {p : Pattern} (hne : p ≠ [])
    (hocc : ∀ o ∈ p, o ≠ [] ∧ o.Nodup) :
    occPairTotal 1 p p = (1, 1, true) := by
  have hdiag : ∀ o ∈ p, cardScoreTotal o o = 1 := fun o ho =>
    cardScoreTotal_self (hocc o ho).1 (hocc o ho).2
  have hball : ∀ x ∈ (scoreMatrixTotal p p).flatten, x ≤ 1 := by
    intro x hx
    obtain ⟨row, hrow, hxr⟩ := List.mem_flatten.mp hx
    exact (scoreMatrixTotal_entry_bounds row hrow x hxr).2
  have hone : (1 : ℚ) ∈ (scoreMatrixTotal p p).flatten := by
    obtain ⟨o, ho⟩ := List.exists_mem_of_ne_nil p hne
    refine List.mem_flatten.mpr ⟨p.map (fun occ_Q => cardScoreTotal o occ_Q), ?_, ?_⟩
    · rw [scoreMatrixTotal]
      exact List.mem_map_of_mem _ ho
    · exact List.mem_map.mpr ⟨o, ho, hdiag o ho⟩
  have hmax : listMax (scoreMatrixTotal p p).flatten = 1 := listMax_eq_of_mem_of_le hone hball
  have hcol : npMean (colMaxima (scoreMatrixTotal p p)) = 1 := by
    rw [scoreMatrixTotal, colMaxima_map_map (fun a b => cardScoreTotal a b) p p hne]
    refine npMean_all_eq (by simpa using hne) (fun x hx => ?_)
    obtain ⟨occ_Q, hoQ, rfl⟩ := List.mem_map.mp hx
    refine listMax_eq_of_mem_of_le (List.mem_map.mpr ⟨occ_Q, hoQ, hdiag occ_Q hoQ⟩)
      (fun y hy => ?_)
    obtain ⟨occ_P, _, rfl⟩ := List.mem_map.mp hy
    exact cardScoreTotal_le_one _ _
  have hrow : npMean (rowMaxima (scoreMatrixTotal p p)) = 1 := by
    rw [rowMaxima, scoreMatrixTotal, List.map_map]
    refine npMean_all_eq (by simpa using hne) (fun x hx => ?_)
    obtain ⟨occ_P, hoP, rfl⟩ := List.mem_map.mp hx
    refine listMax_eq_of_mem_of_le (List.mem_map.mpr ⟨occ_P, hoP, hdiag occ_P hoP⟩)
      (fun y hy => ?_)
    obtain ⟨occ_Q, _, rfl⟩ := List.mem_map.mp hy
    exact cardScoreTotal_le_one _ _
  rw [occPairTotal]
  rw [if_pos (by rw [hmax])]
  rw [hcol, hrow]

theorem protoMatchB_self {tol : ℚ} (htol : 0 ≤ tol) (Q : Occurrence) :
    protoMatchB tol Q Q = true := by
  have hsubzero : ∀ row ∈ matSub Q Q, ∀ x ∈ row, x = 0 := by
    intro row hrow x hx
    rw [matSub, List.zipWith_same] at hrow
    obtain ⟨a, _, rfl⟩ := List.mem_map.mp hrow
    rw [List.zipWith_same] at hx
    obtain ⟨b, _, rfl⟩ := List.mem_map.mp hx
    exact sub_self b
  have hdiffzero : ∀ row ∈ diffRows (matSub Q Q), ∀ x ∈ row, x = 0 := by
    intro row hrow x hx
    rw [diffRows] at hrow
    obtain ⟨r1, hr1, r2, hr2, rfl⟩ := mem_zipWith hrow
    obtain ⟨a, ha, b, hb, rfl⟩ := mem_zipWith hx
    rw [hsubzero r1 hr1 a ha, hsubzero r2 (List.mem_of_mem_tail hr2) b hb, sub_zero]
  have hzero : matSum (diffRows (matSub Q Q)) = 0 := by
    rw [matSum]
    refine List.sum_eq_zero (fun x hx => ?_)
    obtain ⟨row, hrow, rfl⟩ := List.mem_map.mp hx
    exact List.sum_eq_zero (hdiffzero row hrow)
  rw [protoMatchB, hzero]
  simp [htol]

/-! ### The claims

The arithmetic of concrete runs is evaluated by `decide`; the `Rat`
operations are restored to their definitional unfolding for that purpose. -/

section ClaimEvaluation

attribute [local semireducible] Rat.add Rat.mul Rat.inv Rat.sub

/-- C1: the spec says that on a zero-event input every metric returns
`(0.0, 0.0, 0.0)`, or the single value `0.0` for the two first-N single-value
variants.  The code instead returns the full tuple `(0., 0., 0.)` from both
first-N variants on the empty-input guard, contradicting their own docstrings
(`:returns: precision : float` resp. `recall : float`): with a one-event
reference and an empty estimated collection, both wrapped calls emit the
empty-estimate warning and return the tuple, which is not a single value. -/
theorem C1_first_n_empty_input_returns_triple :
    first_n_three_layer_P [[[[(0:ℚ), 60]]]] [] 5 =
      ([emptyEstWarning], .ok (.triple 0 0 0)) ∧
    first_n_target_proportion_R [[[[(0:ℚ), 60]]]] [] 5 =
      ([emptyEstWarning], .ok (.triple 0 0 0)) ∧
    (∀ v : ℚ, MetricValue.triple 0 0 0 ≠ MetricValue.single v) :=
  ⟨by decide, by decide, fun v h => by injection h⟩

/-- C2: on the one-pattern, one-occurrence, two-event collection
`[[[(0,60),(1,62)]]]` compared with an identical copy, `standard_FPR`,
`establishment_FPR` and `three_layer_FPR` all return exactly
`(1.0, 1.0, 1.0)` (and emit no warnings, raise no exception). -/
theorem C2_identical_singleton_scenario :
    standard_FPR [[[[(0:ℚ), 60], [1, 62]]]] [[[[(0:ℚ), 60], [1, 62]]]] tolDefault =
      ([], .ok (1, 1, 1)) ∧
    establishment_FPR [[[[(0:ℚ), 60], [1, 62]]]] [[[[(0:ℚ), 60], [1, 62]]]]
      "cardinality_score" = ([], .ok (1, 1, 1)) ∧
    three_layer_FPR [[[[(0:ℚ), 60], [1, 62]]]] [[[[(0:ℚ), 60], [1, 62]]]] =
      ([], .ok (1, 1, 1)) :=
  ⟨by decide, by decide, by decide⟩

/-- C3 counterexample: `standard_FPR` precision is `k / nQ` where `k` counts
matched reference patterns, so with two identical reference patterns and one
matching estimated pattern it returns precision `2` and F-measure `4/3`,
both outside `[0, 1]`, refuting the claim that every returned value lies in
the closed unit interval. -/
theorem C3_standard_precision_above_one :
    (standard_FPR [[[[(0:ℚ), 60]]], [[[(0:ℚ), 60]]]] [[[[(0:ℚ), 60]]]] tolDefault).2 =
      .ok (4/3, 2, 1) ∧ ¬((2:ℚ) ≤ 1) ∧ ¬((4:ℚ)/3 ≤ 1) :=
  ⟨by decide, by decide, by decide⟩

/-- C3 (amended): every precision, recall and F-measure returned by
`establishment_FPR`, `occurrence_FPR`, `three_layer_FPR` and the two first-N
variants lies in `[0, 1]`, and `standard_FPR` returns a recall in `[0, 1]`
and a nonnegative precision and F-measure — but its precision `k/nQ` (and
hence the F-measure) may exceed 1 when the matched reference patterns
outnumber the estimated patterns. -/
theorem C3_amended_value_bounds (ref est : PatternCollection) :
    (∀ sim f p r, (establishment_FPR ref est sim).2 = .ok (f, p, r) →
      0 ≤ f ∧ f ≤ 1 ∧ 0 ≤ p ∧ p ≤ 1 ∧ 0 ≤ r ∧ r ≤ 1) ∧
    (∀ thres sim f p r, (occurrence_FPR ref est thres sim).2 = .ok (f, p, r) →
      0 ≤ f ∧ f ≤ 1 ∧ 0 ≤ p ∧ p ≤ 1 ∧ 0 ≤ r ∧ r ≤ 1) ∧
    (∀ f p r, (three_layer_FPR ref est).2 = .ok (f, p, r) →
      0 ≤ f ∧ f ≤ 1 ∧ 0 ≤ p ∧ p ≤ 1 ∧ 0 ≤ r ∧ r ≤ 1) ∧
    (∀ n v, (first_n_three_layer_P ref est n).2 = .ok v →
      v = .triple 0 0 0 ∨ ∃ x, v = .single x ∧ 0 ≤ x ∧ x ≤ 1) ∧
    (∀ n v, (first_n_target_proportion_R ref est n).2 = .ok v →
      v = .triple 0 0 0 ∨ ∃ x, v = .single x ∧ 0 ≤ x ∧ x ≤ 1) ∧
    (∀ tol f p r, (standard_FPR ref est tol).2 = .ok (f, p, r) →
      0 ≤ f ∧ 0 ≤ p ∧ 0 ≤ r ∧ r ≤ 1) := by
  refine ⟨?_, ?_, ?_, ?_, ?_, ?_⟩
  · intro sim f p r h
    exact establishment_raw_ok_bounds (runValidated_ok h)
  · intro thres sim f p r h
    exact occurrence_raw_ok_bounds (runValidated_ok h)
  · intro f p r h
    exact three_layer_raw_ok_bounds (runValidated_ok h)
  · intro n v h
    exact first_n_three_layer_raw_ok (runValidated_ok h)
  · intro n v h
    exact first_n_target_proportion_raw_ok (runValidated_ok h)
  · intro tol f p r h
    exact standard_raw_bounds (Except.ok.inj (runValidated_ok h))

/-- C3 (amended) witness: the bounds applied to a concrete run of
`establishment_FPR` that returns `(1, 1, 1)`. -/
theorem C3_amended_value_bounds_witness :
    (establishment_FPR [[[[(0:ℚ), 60], [1, 62]]]] [[[[(0:ℚ), 60], [1, 62]]]]
        "cardinality_score").2 = .ok (1, 1, 1) ∧
      (0 ≤ (1:ℚ) ∧ (1:ℚ) ≤ 1 ∧ 0 ≤ (1:ℚ) ∧ (1:ℚ) ≤ 1 ∧ 0 ≤ (1:ℚ) ∧ (1:ℚ) ≤ 1) :=
  ⟨by decide,
    (C3_amended_value_bounds [[[[(0:ℚ), 60], [1, 62]]]] [[[[(0:ℚ), 60], [1, 62]]]]).1
      "cardinality_score" 1 1 1 (by decide)⟩

/-- C4: in `standard_FPR`, every reference pattern whose prototype is an
exact element-for-element copy of some estimated prototype is counted as a
match (the match counter `k = stdMatches` is at least the number of such
reference patterns), and two prototypes of different lengths never pass the
match test, whatever their contents. -/
theorem C4_exact_copy_matches_length_mismatch_never (tol : ℚ) (htol : 0 ≤ tol)
    (ref est : PatternCollection) :
    ref.countP (fun rp => est.any (fun ep => decide (rp.headD [] = ep.headD []))) ≤
      stdMatches tol ref est ∧
    ∀ P Q : Occurrence, P.length ≠ Q.length → protoMatchB tol P Q = false := by
  constructor
  · rw [stdMatches]
    refine List.countP_mono_left (fun rp _ hcopy => ?_)
    rw [List.any_eq_true] at hcopy ⊢
    obtain ⟨ep, hep, heq⟩ := hcopy
    refine ⟨ep, hep, ?_⟩
    rw [of_decide_eq_true heq]
    exact protoMatchB_self htol _
  · intro P Q hlen
    rw [protoMatchB]
    simp [hlen]

/-- C4 witness: the copy guarantee and the length obstruction at a concrete
pair of one-pattern collections with the default tolerance. -/
theorem C4_exact_copy_witness :
    0 ≤ tolDefault ∧
      ([[[[(0:ℚ), 60]]]] : PatternCollection).countP (fun rp =>
        ([[[[(0:ℚ), 60]]]] : PatternCollection).any (fun ep =>
          decide (rp.headD [] = ep.headD []))) ≤
        stdMatches tolDefault [[[[(0:ℚ), 60]]]] [[[[(0:ℚ), 60]]]] :=
  ⟨by decide,
    (C4_exact_copy_matches_length_mismatch_never tolDefault (by decide) _ _).1⟩

/-- C5: whenever `establishment_FPR` (with the cardinality score) returns on
inputs past the empty-event guard, its precision is the mean over estimated
patterns of each estimated pattern's best occurrence-pair score against any
reference pattern, its recall is the mean over reference patterns of their
best score against any estimated pattern, and the F-measure is computed from
that precision and recall — i.e. the pattern-level matrix `S[i,j]` holds the
maximum of the occurrence-level score matrix and is reduced by column-maxima
and row-maxima means. -/
theorem C5_establishment_structure (ref est : PatternCollection) (f p r : ℚ)
    (href : n_onset_midi ref ≠ 0) (hest : n_onset_midi est ≠ 0)
    (hok : (establishment_FPR ref est "cardinality_score").2 = .ok (f, p, r)) :
    p = specEstablishmentPrecision ref est ∧ r = specEstablishmentRecall ref est ∧
      f = f_measure p r :=
  establishment_raw_main href hest (runValidated_ok hok)

/-- C5 witness: the decomposition applied to a run that returns `(1, 1, 1)`. -/
theorem C5_establishment_structure_witness :
    n_onset_midi [[[[(0:ℚ), 60], [1, 62]]]] ≠ 0 ∧
    (establishment_FPR [[[[(0:ℚ), 60], [1, 62]]]] [[[[(0:ℚ), 60], [1, 62]]]]
      "cardinality_score").2 = .ok (1, 1, 1) ∧
    ((1:ℚ) = specEstablishmentPrecision [[[[(0:ℚ), 60], [1, 62]]]]
        [[[[(0:ℚ), 60], [1, 62]]]] ∧
      (1:ℚ) = specEstablishmentRecall [[[[(0:ℚ), 60], [1, 62]]]]
        [[[[(0:ℚ), 60], [1, 62]]]] ∧
      (1:ℚ) = f_measure 1 1) :=
  ⟨by decide, by decide,
    C5_establishment_structure _ _ 1 1 1 (by decide) (by decide) (by decide)⟩

/-- C6 counterexample: with threshold 3/4, reference patterns
`[[o1]], [[o3]]` and estimated patterns `[[o1]], [[o2]]` (four-event
occurrences with `|o1 ∩ o2| = 3`, `|o1 ∩ o3| = 3`, `|o2 ∩ o3| = 2`), the
relevant pairs are `(0,0), (0,1), (1,0)`; the code averages the submatrix
column maxima over the three relevant pairs (precision `11/12`), not over
the two distinct columns with a relevant entry (which would give `7/8`), so
the averaging denominator is not the number of distinct columns. -/
theorem C6_duplicate_pair_denominator :
    (occurrence_FPR
      [[[[(0:ℚ), 1], [0, 2], [0, 3], [0, 4]]], [[[(0:ℚ), 1], [0, 2], [0, 3], [0, 9]]]]
      [[[[(0:ℚ), 1], [0, 2], [0, 3], [0, 4]]], [[[(0:ℚ), 1], [0, 2], [0, 4], [0, 5]]]]
      (3/4) "cardinality_score").2 = .ok (11/12, 11/12, 11/12) ∧
    claimDistinctPrecision
      [[[[(0:ℚ), 1], [0, 2], [0, 3], [0, 4]]], [[[(0:ℚ), 1], [0, 2], [0, 3], [0, 9]]]]
      [[[[(0:ℚ), 1], [0, 2], [0, 3], [0, 4]]], [[[(0:ℚ), 1], [0, 2], [0, 4], [0, 5]]]]
      (3/4) = 7/8 ∧
    ((11:ℚ)/12 ≠ 7/8) :=
  ⟨by decide, by decide, by decide⟩

/-- C6 (amended): a reference or estimated pattern belonging to no relevant
pair contributes nothing to `occurrence_FPR`: on a run that returns through
the relevant branch, precision and recall read the `O_PR` entries only at
rows and columns of relevant pairs — but the averaging denominator is the
number of relevant pairs `len(rel_idx)` (a row or column in several relevant
pairs is counted once per pair), not the number of distinct rows or columns
with a relevant entry. -/
theorem C6_amended_relevant_pair_averages (ref est : PatternCollection)
    (thres f p r : ℚ)
    (hocc : ∀ rp ∈ ref, ∀ o ∈ rp, o ≠ [])
    (href : n_onset_midi ref ≠ 0) (hest : n_onset_midi est ≠ 0)
    (hrel : relPairsTotal ref est thres ≠ [])
    (hok : (occurrence_FPR ref est thres "cardinality_score").2 = .ok (f, p, r)) :
    p = (((relPairsTotal ref est thres).map Prod.snd).map (fun c =>
          listMax (((relPairsTotal ref est thres).map Prod.fst).map (fun rr =>
            opP ref est thres rr c)))).sum / ((relPairsTotal ref est thres).length : ℚ) ∧
    r = (((relPairsTotal ref est thres).map Prod.fst).map (fun rr =>
          listMax (((relPairsTotal ref est thres).map Prod.snd).map (fun c =>
            opR ref est thres rr c)))).sum / ((relPairsTotal ref est thres).length : ℚ) ∧
    f = f_measure p r := by
  have hraw := runValidated_ok hok
  rw [occurrence_raw_eval hocc (by tauto), if_neg hrel] at hraw
  obtain ⟨hf, hp, hr⟩ := ok_triple_inj hraw
  refine ⟨?_, ?_, ?_⟩
  · rw [← hp, npMean, List.length_map, List.length_map]
  · rw [← hr, npMean, List.length_map, List.length_map]
  · rw [← hf, hp, hr]

/-- C6 (amended) witness: the decomposition applied to the run returning
precision `11/12` over three relevant pairs. -/
theorem C6_amended_relevant_pair_averages_witness :
    (∀ rp ∈ ([[[[(0:ℚ), 1], [0, 2], [0, 3], [0, 4]]],
        [[[(0:ℚ), 1], [0, 2], [0, 3], [0, 9]]]] : PatternCollection),
      ∀ o ∈ rp, o ≠ []) ∧
    relPairsTotal
      [[[[(0:ℚ), 1], [0, 2], [0, 3], [0, 4]]], [[[(0:ℚ), 1], [0, 2], [0, 3], [0, 9]]]]
      [[[[(0:ℚ), 1], [0, 2], [0, 3], [0, 4]]], [[[(0:ℚ), 1], [0, 2], [0, 4], [0, 5]]]]
      (3/4) ≠ [] ∧
    (11:ℚ)/12 = (((relPairsTotal
      [[[[(0:ℚ), 1], [0, 2], [0, 3], [0, 4]]], [[[(0:ℚ), 1], [0, 2], [0, 3], [0, 9]]]]
      [[[[(0:ℚ), 1], [0, 2], [0, 3], [0, 4]]], [[[(0:ℚ), 1], [0, 2], [0, 4], [0, 5]]]]
      (3/4)).map Prod.snd).map (fun c =>
        listMax (((relPairsTotal
          [[[[(0:ℚ), 1], [0, 2], [0, 3], [0, 4]]], [[[(0:ℚ), 1], [0, 2], [0, 3], [0, 9]]]]
          [[[[(0:ℚ), 1], [0, 2], [0, 3], [0, 4]]], [[[(0:ℚ), 1], [0, 2], [0, 4], [0, 5]]]]
          (3/4)).map Prod.fst).map (fun rr =>
            opP [[[[(0:ℚ), 1], [0, 2], [0, 3], [0, 4]]], [[[(0:ℚ), 1], [0, 2], [0, 3], [0, 9]]]]
              [[[[(0:ℚ), 1], [0, 2], [0, 3], [0, 4]]], [[[(0:ℚ), 1], [0, 2], [0, 4], [0, 5]]]]
              (3/4) rr c)))).sum /
        ((relPairsTotal
          [[[[(0:ℚ), 1], [0, 2], [0, 3], [0, 4]]], [[[(0:ℚ), 1], [0, 2], [0, 3], [0, 9]]]]
          [[[[(0:ℚ), 1], [0, 2], [0, 3], [0, 4]]], [[[(0:ℚ), 1], [0, 2], [0, 4], [0, 5]]]]
          (3/4)).length : ℚ) :=
  ⟨by decide, by decide,
    (C6_amended_relevant_pair_averages _ _ (3/4) (11/12) (11/12) (11/12)
      (by decide) (by decide) (by decide) (by decide) (by decide)).1⟩

/-- C7 counterexample: the collection `[[[(0,60),(0,60)]]]` has two events
(so it is non-degenerate), yet `occurrence_FPR` with threshold 1.0 on two
identical copies of it returns `(0, 0, 0)`, because the duplicated event
makes every cardinality score `1/2 < 1`, leaving no relevant pair. -/
theorem C7_duplicate_events_break_identity :
    n_onset_midi [[[[(0:ℚ), 60], [0, 60]]]] ≠ 0 ∧
    (occurrence_FPR [[[[(0:ℚ), 60], [0, 60]]]] [[[[(0:ℚ), 60], [0, 60]]]] 1
      "cardinality_score").2 = .ok (0, 0, 0) ∧ ((0:ℚ) ≠ 1) :=
  ⟨by decide, by decide, by decide⟩

/-- C7 (amended): `occurrence_FPR` with threshold 1.0 on two identical
copies of a collection returns precision = recall = 1 (and F-measure 1)
provided the collection is nonempty, every pattern has an occurrence, every
occurrence is nonempty with pairwise-distinct events, and every event is a
2-tuple (so that validation passes); an occurrence with duplicated or no
events falsifies the original unconditional claim. -/
theorem C7_amended_identity_perfect (C : PatternCollection) (hne : C ≠ [])
    (hpat : ∀ p ∈ C, p ≠ []) (hocc : ∀ p ∈ C, ∀ o ∈ p, o ≠ [] ∧ o.Nodup)
    (hev : ∀ p ∈ C, ∀ o ∈ p, ∀ e ∈ o, e.length = 2) :
    (occurrence_FPR C C 1 "cardinality_score").2 = .ok (1, 1, 1) := by
  have hocc' : ∀ rp ∈ C, ∀ o ∈ rp, o ≠ [] := fun rp hrp o ho => (hocc rp hrp o ho).1
  obtain ⟨p0, hp0⟩ := List.exists_mem_of_ne_nil C hne
  obtain ⟨o0, ho0⟩ := List.exists_mem_of_ne_nil p0 (hpat p0 hp0)
  have hg1 : n_onset_midi C ≠ 0 := n_onset_midi_ne_zero hp0 ho0 (hocc' p0 hp0 o0 ho0)
  have hguard : ¬(n_onset_midi C = 0 ∨ n_onset_midi C = 0) := by tauto
  have hval : validateError C C = none := by
    rw [validateError_eq_none_iff]
    constructor <;>
      · rw [collectionError_eq_none_iff]
        exact fun p hp => ⟨hpat p hp, fun occ hoc e he => hev p hp occ hoc e he⟩
  have hdiagpair : ∀ i, i < C.length →
      occPairTotal 1 (C.getD i []) (C.getD i []) = (1, 1, true) := by
    intro i hi
    have hmem : C.getD i [] ∈ C := by
      rw [getD_elem hi]
      exact List.getElem_mem hi
    exact occPairTotal_self (hpat _ hmem) (fun o ho => hocc _ hmem o ho)
  have hdiagrel : ∀ i, i < C.length → (i, i) ∈ relPairsTotal C C 1 := by
    intro i hi
    rw [mem_relPairsTotal]
    exact ⟨hi, hi, by rw [hdiagpair i hi]⟩
  have hrelne : relPairsTotal C C 1 ≠ [] := by
    intro h0
    have := hdiagrel 0 (List.length_pos.mpr hne)
    rw [h0] at this
    simp at this
  have hopPle : ∀ rr c, opP C C 1 rr c ≤ 1 := fun rr c => ((occPairTotal_bounds 1 _ _).1).2
  have hopRle : ∀ rr c, opR C C 1 rr c ≤ 1 := fun rr c => ((occPairTotal_bounds 1 _ _).2).2
  have hopPdiag : ∀ i, i < C.length → opP C C 1 i i = 1 := by
    intro i hi
    rw [opP, hdiagpair i hi]
  have hopRdiag : ∀ i, i < C.length → opR C C 1 i i = 1 := by
    intro i hi
    rw [opR, hdiagpair i hi]
  have hprec : npMean (((relPairsTotal C C 1).map Prod.snd).map (fun c =>
      listMax (((relPairsTotal C C 1).map Prod.fst).map (fun rr => opP C C 1 rr c)))) = 1 := by
    refine npMean_all_eq (by simpa using hrelne) (fun x hx => ?_)
    obtain ⟨c, hc, rfl⟩ := List.mem_map.mp hx
    obtain ⟨pr, hpr, rfl⟩ := List.mem_map.mp hc
    obtain ⟨a, b⟩ := pr
    have hb : b < C.length := (mem_relPairsTotal.mp hpr).2.1
    refine listMax_eq_of_mem_of_le ?_ (fun y hy => ?_)
    · exact List.mem_map.mpr ⟨b, List.mem_map.mpr ⟨(b, b), hdiagrel b hb, rfl⟩,
        hopPdiag b hb⟩
    · obtain ⟨rr, _, rfl⟩ := List.mem_map.mp hy
      exact hopPle rr _
  have hrecl : npMean (((relPairsTotal C C 1).map Prod.fst).map (fun rr =>
      listMax (((relPairsTotal C C 1).map Prod.snd).map (fun c => opR C C 1 rr c)))) = 1 := by
    refine npMean_all_eq (by simpa using hrelne) (fun x hx => ?_)
    obtain ⟨rr, hrr, rfl⟩ := List.mem_map.mp hx
    obtain ⟨pr, hpr, rfl⟩ := List.mem_map.mp hrr
    obtain ⟨a, b⟩ := pr
    have ha : a < C.length := (mem_relPairsTotal.mp hpr).1
    refine listMax_eq_of_mem_of_le ?_ (fun y hy => ?_)
    · exact List.mem_map.mpr ⟨a, List.mem_map.mpr ⟨(a, a), hdiagrel a ha, rfl⟩,
        hopRdiag a ha⟩
    · obtain ⟨c, _, rfl⟩ := List.mem_map.mp hy
      exact hopRle _ c
  rw [occurrence_FPR, runValidated]
  dsimp only
  rw [hval]
  rw [occurrence_raw_eval hocc' hguard, if_neg hrelne, hprec, hrecl, f_measure_one_one]

/-- C7 (amended) witness: the identity run at a concrete valid collection
with distinct events. -/
theorem C7_amended_identity_perfect_witness :
    (([[[[(0:ℚ), 60]], [[1, 62], [2, 63]]], [[[5, 50]]]] : PatternCollection) ≠ []) ∧
    (∀ p ∈ ([[[[(0:ℚ), 60]], [[1, 62], [2, 63]]], [[[5, 50]]]] : PatternCollection), p ≠ []) ∧
    (∀ p ∈ ([[[[(0:ℚ), 60]], [[1, 62], [2, 63]]], [[[5, 50]]]] : PatternCollection),
      ∀ o ∈ p, o ≠ [] ∧ o.Nodup) ∧
    (∀ p ∈ ([[[[(0:ℚ), 60]], [[1, 62], [2, 63]]], [[[5, 50]]]] : PatternCollection),
      ∀ o ∈ p, ∀ e ∈ o, e.length = 2) ∧
    (occurrence_FPR [[[[(0:ℚ), 60]], [[1, 62], [2, 63]]], [[[5, 50]]]]
      [[[[(0:ℚ), 60]], [[1, 62], [2, 63]]], [[[5, 50]]]] 1 "cardinality_score").2 =
      .ok (1, 1, 1) :=
  ⟨by decide, by decide, by decide, by decide,
    C7_amended_identity_perfect _ (by decide) (by decide) (by decide) (by decide)⟩

/-- C8: a pattern with zero occurrences, or any event tuple that is not
exactly a 2-tuple, in either input collection makes every public metric
raise the corresponding structural `ValueError` (the shared `validate`
wrapper runs before any score computation, so all six metrics raise the same
message). -/
theorem C8_structural_error_raised (ref est : PatternCollection)
    (tol thres : ℚ) (sim : String) (n : Nat)
    (hbad : ∃ pat ∈ ref ++ est, pat = [] ∨ ∃ occ ∈ pat, ∃ e ∈ occ, e.length ≠ 2) :
    ∃ msg, (msg = occurrenceErrorMsg ∨ msg = tupleErrorMsg) ∧
      (standard_FPR ref est tol).2 = .error msg ∧
      (establishment_FPR ref est sim).2 = .error msg ∧
      (occurrence_FPR ref est thres sim).2 = .error msg ∧
      (three_layer_FPR ref est).2 = .error msg ∧
      (first_n_three_layer_P ref est n).2 = .error msg ∧
      (first_n_target_proportion_R ref est n).2 = .error msg := by
  have hv : ∃ msg, validateError ref est = some msg := by
    by_contra hno
    push_neg at hno
    have hnone : validateError ref est = none := by
      cases h : validateError ref est with
      | none => rfl
      | some m => exact absurd h (hno m)
    rw [validateError_eq_none_iff] at hnone
    obtain ⟨h1, h2⟩ := hnone
    rw [collectionError_eq_none_iff] at h1 h2
    obtain ⟨pat, hpat, hbadp⟩ := hbad
    rcases List.mem_append.mp hpat with hmem | hmem
    · rcases hbadp with rfl | ⟨occ, hoc, e, he, hlen⟩
      · exact (h1 _ hmem).1 rfl
      · exact hlen ((h1 _ hmem).2 occ hoc e he)
    · rcases hbadp with rfl | ⟨occ, hoc, e, he, hlen⟩
      · exact (h2 _ hmem).1 rfl
      · exact hlen ((h2 _ hmem).2 occ hoc e he)
  obtain ⟨msg, hmsg⟩ := hv
  have hkind : msg = occurrenceErrorMsg ∨ msg = tupleErrorMsg := by
    rw [validateError] at hmsg
    cases hcr : collectionError ref with
    | some e =>
      rw [hcr] at hmsg
      exact (Option.some.inj hmsg) ▸ collectionError_some_msg hcr
    | none =>
      rw [hcr] at hmsg
      exact collectionError_some_msg hmsg
  refine ⟨msg, hkind, ?_, ?_, ?_, ?_, ?_, ?_⟩
  · rw [standard_FPR, runValidated]
    dsimp only
    rw [hmsg]
  · rw [establishment_FPR, runValidated]
    dsimp only
    rw [hmsg]
  · rw [occurrence_FPR, runValidated]
    dsimp only
    rw [hmsg]
  · rw [three_layer_FPR, runValidated]
    dsimp only
    rw [hmsg]
  · rw [first_n_three_layer_P, runValidated]
    dsimp only
    rw [hmsg]
  · rw [first_n_target_proportion_R, runValidated]
    dsimp only
    rw [hmsg]

/-- C8 witness: a 3-element event tuple makes all six metrics raise the
tuple structural error. -/
theorem C8_structural_error_raised_witness :
    (∃ pat ∈ ([[[[(0:ℚ), 60, 5]]]] : PatternCollection) ++
        ([[[[(0:ℚ), 60, 5]]]] : PatternCollection),
      pat = [] ∨ ∃ occ ∈ pat, ∃ e ∈ occ, e.length ≠ 2) ∧
    ∃ msg, (msg = occurrenceErrorMsg ∨ msg = tupleErrorMsg) ∧
      (standard_FPR [[[[(0:ℚ), 60, 5]]]] [[[[(0:ℚ), 60, 5]]]] tolDefault).2 = .error msg ∧
      (establishment_FPR [[[[(0:ℚ), 60, 5]]]] [[[[(0:ℚ), 60, 5]]]]
        "cardinality_score").2 = .error msg ∧
      (occurrence_FPR [[[[(0:ℚ), 60, 5]]]] [[[[(0:ℚ), 60, 5]]]] (3/4)
        "cardinality_score").2 = .error msg ∧
      (three_layer_FPR [[[[(0:ℚ), 60, 5]]]] [[[[(0:ℚ), 60, 5]]]]).2 = .error msg ∧
      (first_n_three_layer_P [[[[(0:ℚ), 60, 5]]]] [[[[(0:ℚ), 60, 5]]]] 5).2 = .error msg ∧
      (first_n_target_proportion_R [[[[(0:ℚ), 60, 5]]]] [[[[(0:ℚ), 60, 5]]]] 5).2 =
        .error msg :=
  ⟨by decide, C8_structural_error_raised _ _ tolDefault (3/4) "cardinality_score" 5 (by decide)⟩

/-- C9: the prototypes `P = [(0,60),(1,61)]` and `Q = [(0,60),(2,60)]` have
equal length, are not related by any constant (onset, pitch) translation,
yet pass the `standard_FPR` match test: the test sums the first differences
of both coordinate columns into one scalar, so the onset deviation `-1` and
the pitch deviation `+1` cancel, and `standard_FPR` scores the pair
`(1.0, 1.0, 1.0)`. -/
theorem C9_cross_coordinate_cancellation :
    ([[(0:ℚ), 60], [1, 61]] : Occurrence).length =
      ([[(0:ℚ), 60], [2, 60]] : Occurrence).length ∧
    protoMatchB tolDefault [[(0:ℚ), 60], [1, 61]] [[(0:ℚ), 60], [2, 60]] = true ∧
    ¬ isTranslationOf [[(0:ℚ), 60], [1, 61]] [[(0:ℚ), 60], [2, 60]] ∧
    standard_FPR [[[[(0:ℚ), 60], [1, 61]]]] [[[[(0:ℚ), 60], [2, 60]]]] tolDefault =
      ([], .ok (1, 1, 1)) := by
  refine ⟨by decide, by decide, ?_, by decide⟩
  rintro ⟨dt, dp, h⟩
  simp only [List.map_cons, List.map_nil, List.cons.injEq, List.getD_cons_zero,
    List.getD_cons_succ] at h
  obtain ⟨⟨h1, h2, -⟩, ⟨h3, h4, -⟩, -⟩ := h
  refine absurd h3 ?_
  intro h3
  rw [show dt = 0 from by linarith] at h3
  norm_num at h3

/-- C10: validation accepts a pattern containing an occurrence with zero
events (it checks only pattern nonemptiness and tuple arity), and on such an
input with at least one event overall the unguarded divisions by the
occurrence length in `three_layer_FPR`'s first layer and by the larger
occurrence length in the cardinality score raise `ZeroDivisionError`. -/
theorem C10_empty_occurrence_unguarded_division :
    validateError [[[]], [[[(0:ℚ), 60]]]] [[[]], [[[(0:ℚ), 60]]]] = none ∧
    n_onset_midi [[[]], [[[(0:ℚ), 60]]]] ≠ 0 ∧
    (three_layer_FPR [[[]], [[[(0:ℚ), 60]]]] [[[]], [[[(0:ℚ), 60]]]]).2 =
      .error "ZeroDivisionError" ∧
    (establishment_FPR [[[]], [[[(0:ℚ), 60]]]] [[[]], [[[(0:ℚ), 60]]]]
      "cardinality_score").2 = .error "ZeroDivisionError" :=
  ⟨by decide, by decide, by decide, by decide⟩

end ClaimEvaluation

end MirEval
